import Mathlib

/-!
# The accumulate kernels of `vector/gen.go` and the glyph face of `font/opentype/face.go`

The first part embeds the instruction sequences that `vector/gen.go` emits into the
amd64 accumulate kernels: every instruction is a pure function on register contents
and every template fragment is the chain of its instructions, in source order.
Integer registers hold natural numbers; an instruction that truncates to 32 or 64 bits
does so with an explicit `% 2 ^ 32` or `% 2 ^ 64`. A float32 lane holds a finite value as
sign, significand and exponent, and the floating-point instructions are exact on it.

The second part embeds `Face` of `font/opentype/face.go` by explicit state passing: a
method takes the `Face` and returns its results with the `Face` it leaves. The font
decoder and the rasterizer are parameters. The Go type `int` is 64 bits wide, with an
explicit wrap after each arithmetic operation.
-/

namespace vector

/-! ## Registers -/

/-- An XMM register as four 32-bit lanes; lane 0 is the least significant. -/
abbrev XMM := Fin 4 → Nat

/-- The register that holds the same 32-bit value in all four lanes. -/
def XMM.splat (c : Nat) : XMM := fun _ => c

/-- The low 32-bit lane of quadword `k`: lane `2k`. -/
def XMM.lo (x : XMM) (k : Fin 2) : Nat := x ⟨2 * k.val, by omega⟩

/-- The high 32-bit lane of quadword `k`: lane `2k+1`. -/
def XMM.hi (x : XMM) (k : Fin 2) : Nat := x ⟨2 * k.val + 1, by omega⟩

/-- Quadword `k` of a register: lanes `2k` (low half) and `2k+1` (high half). -/
def XMM.quad (x : XMM) (k : Fin 2) : Nat :=
  x.lo k % 2 ^ 32 + 2 ^ 32 * (x.hi k % 2 ^ 32)

/-- The register whose two quadwords are `q 0` and `q 1`, each truncated to 64 bits. -/
def XMM.ofQuads (q : Fin 2 → Nat) : XMM := fun i =>
  if i.val % 2 = 0 then q ⟨i.val / 2, by omega⟩ % 2 ^ 32
  else q ⟨i.val / 2, by omega⟩ / 2 ^ 32 % 2 ^ 32

/-- Signed reading of a 32-bit lane (two's complement). -/
def toInt32 (u : Nat) : Int :=
  if u % 2 ^ 32 < 2 ^ 31 then ((u % 2 ^ 32 : Nat) : Int) else ((u % 2 ^ 32 : Nat) : Int) - 2 ^ 32

/-- The 32-bit lane that holds the signed value `x` (two's complement). -/
def ofInt32 (x : Int) : Nat := (x % 2 ^ 32).toNat

/-! ## Constants loaded by the `LoadXMMRegs` fragments -/

/-- `fxAlmost256 := XMM(0x000000ff repeated four times)`, the maximum of an uint8. -/
def fxAlmost256 : XMM := XMM.splat 0x000000ff

/-- `fxAlmost65536 := XMM(0x0000ffff repeated four times)`, the maximum of an uint16. -/
def fxAlmost65536 : XMM := XMM.splat 0x0000ffff

/-- `inverseFFFF := XMM(0x80008001 repeated four times)`, the magic constant for
dividing by 0xffff. -/
def inverseFFFF : XMM := XMM.splat 0x80008001

/-- Modelled from the spec: the constant ϕ of the fixed-point rasterizer, which
`gen.go` only names in the comments `Shift by 2*ϕ - 8` and `Shift by 2*ϕ - 16`; its
declaration is in the rasterizer sources, not in `gen.go`. -/
def phi : Nat := 10

/-! ## SSE instructions, lane by lane -/

/-- `pabsd src, dst`: absolute value of each signed 32-bit lane; the minimum value
`0x80000000` is its own absolute value. -/
def pabsd (src : XMM) : XMM := fun i =>
  if src i % 2 ^ 32 < 2 ^ 31 then src i % 2 ^ 32 else (2 ^ 32 - src i % 2 ^ 32) % 2 ^ 32

/-- `psrld $n, dst`: logical right shift of each 32-bit lane. -/
def psrld (n : Nat) (dst : XMM) : XMM := fun i => (dst i % 2 ^ 32) >>> n

/-- `pminud src, dst`: unsigned minimum of each 32-bit lane. -/
def pminud (src dst : XMM) : XMM := fun i => min (dst i % 2 ^ 32) (src i % 2 ^ 32)

/-- `PSUBL src, dst`: `dst - src` in each 32-bit lane, modulo `2 ^ 32`. -/
def psubl (src dst : XMM) : XMM := fun i =>
  (dst i % 2 ^ 32 + (2 ^ 32 - src i % 2 ^ 32)) % 2 ^ 32

/-- `PADDD src, dst`: `dst + src` in each 32-bit lane, modulo `2 ^ 32`. -/
def paddd (src dst : XMM) : XMM := fun i => (dst i + src i) % 2 ^ 32

/-- `PMULLD src, dst`: the low 32 bits of the product of each pair of 32-bit lanes. -/
def pmulld (src dst : XMM) : XMM := fun i => (dst i % 2 ^ 32 * (src i % 2 ^ 32)) % 2 ^ 32

/-- `pmuludq src, dst`: in each quadword, the full 64-bit product of the low 32-bit
lanes of the two operands. -/
def pmuludq (src dst : XMM) : XMM :=
  XMM.ofQuads fun k => (dst.lo k % 2 ^ 32) * (src.lo k % 2 ^ 32)

/-- `PSRLQ $n, dst`: logical right shift of each 64-bit quadword. -/
def psrlq (n : Nat) (dst : XMM) : XMM := XMM.ofQuads fun k => dst.quad k >>> n

/-- `PSLLQ $n, dst`: left shift of each 64-bit quadword, modulo `2 ^ 64`. -/
def psllq (n : Nat) (dst : XMM) : XMM := XMM.ofQuads fun k => (dst.quad k <<< n) % 2 ^ 64

/-- `XORPS src, dst`: bitwise exclusive or. -/
def xorps (src dst : XMM) : XMM := fun i => (dst i % 2 ^ 32) ^^^ (src i % 2 ^ 32)

/-- `MOVL (DI), X0` followed by `PSHUFB X8, X0` with `X8 = scatterAndMulBy0x101`: lane
`i` receives `uint32(dst[i]) * 0x101`, the byte `dst[i]` copied into the two low bytes of
the lane. The shuffle mask itself is declared in the assembly template. -/
def scatterAndMulBy0x101 (dst : Fin 4 → Nat) : XMM := fun i => (dst i % 256) * 0x101

/-- `PSHUFB X6, X2` followed by `MOVL X2, (DI)`: the low byte of each 4-byte lane is
stored to `dst[i]` (`shuffleTheLowBytesOfEach4ByteElement`, then copy of the low four
bytes). -/
def storeLowBytes (z : XMM) : Fin 4 → Nat := fun i => z i % 256

/-! ## Scalar instructions -/

/-- `MOVBLZX (DI), r`: load one byte, zero-extended. -/
def movblzx (b : Nat) : Nat := b % 256

/-- `IMULL $imm, r`: the low 32 bits of the product. -/
def imull (imm r : Nat) : Nat := (r * imm) % 2 ^ 32

/-- `MOVL src, r`: copy of the low 32 bits. -/
def movl (src : Nat) : Nat := src % 2 ^ 32

/-- `SUBL src, dst`: `dst - src` modulo `2 ^ 32`. -/
def subl (src dst : Nat) : Nat := (dst % 2 ^ 32 + (2 ^ 32 - src % 2 ^ 32)) % 2 ^ 32

/-- `ADDL src, dst`: `dst + src` modulo `2 ^ 32`. -/
def addl (src dst : Nat) : Nat := (dst + src) % 2 ^ 32

/-- `MULL r`: the unsigned 64-bit product of `AX` and `r`, returned as `(DX, AX)`, the
high and the low 32 bits. -/
def mull (ax r : Nat) : Nat × Nat :=
  ((ax % 2 ^ 32) * (r % 2 ^ 32) / 2 ^ 32, (ax % 2 ^ 32) * (r % 2 ^ 32) % 2 ^ 32)

/-- `SHRL $n, r`: logical right shift of a 32-bit register. -/
def shrl (n r : Nat) : Nat := (r % 2 ^ 32) >>> n

/-- `MOVB r, (DI)`: store of the low byte. -/
def movb (r : Nat) : Nat := r % 256

/-! ## Template fragments -/

/-- `fxLoadXMMRegs256`: `MOVOU fxAlmost256<>(SB), X5`. -/
def fxLoadXMMRegs256 : XMM := fxAlmost256

/-- `fxLoadXMMRegs65536`: `MOVOU fxAlmost65536<>(SB), X5`. -/
def fxLoadXMMRegs65536 : XMM := fxAlmost65536

/-- `fxClampAndScale256`: from `X1` (the accumulator) and `X5`, the value left in `X2`.
```
pabsd  %xmm1,%xmm2
psrld  $0xc,%xmm2
pminud %xmm5,%xmm2
```
-/
def fxClampAndScale256 (x1 x5 : XMM) : XMM :=
  let x2 := pabsd x1
  let x2 := psrld 0xc x2
  let x2 := pminud x5 x2
  x2

/-- `fxClampAndScale65536`: from `X1` (the accumulator) and `X5`, the value left in `X2`.
```
pabsd  %xmm1,%xmm2
psrld  $0x4,%xmm2
pminud %xmm5,%xmm2
```
-/
def fxClampAndScale65536 (x1 x5 : XMM) : XMM :=
  let x2 := pabsd x1
  let x2 := psrld 0x4 x2
  let x2 := pminud x5 x2
  x2

/-- `opOverStore1`: from the byte at `(DI)` and the low lane of `X2`, the byte stored
back to `(DI)`.
```
MOVBLZX (DI), R12
IMULL   $0x101, R12
MOVL    X2, R13
MOVL    $0xffff, AX
SUBL    R13, AX
MULL    R12
MOVL    $0x80008001, BX
MULL    BX
SHRL    $15, DX
ADDL    DX, R13
SHRL    $8, R13
MOVB    R13, (DI)
```
-/
def opOverStore1 (dst0 : Nat) (x2 : Nat) : Nat :=
  let r12 := movblzx dst0
  let r12 := imull 0x101 r12
  let r13 := movl x2
  let ax := movl 0xffff
  let ax := subl r13 ax
  let ax := (mull ax r12).2
  let bx := movl 0x80008001
  let dx := (mull ax bx).1
  let dx := shrl 15 dx
  let r13 := addl dx r13
  let r13 := shrl 8 r13
  movb r13

/-- `opOverStore4`: from the four bytes at `(DI)`, the coverage in `X2` and the constants
in `X9` and `X10`, the four bytes stored back to `(DI)`.
```
MOVL   (DI), X0
PSHUFB X8, X0
MOVOU  X9, X11
PSUBL  X2, X11
PMULLD X11, X0
MOVOU  X0, X11
PSRLQ  $32, X11
pmuludq %xmm10,%xmm0
pmuludq %xmm10,%xmm11
PSRLQ  $47, X0
PSRLQ  $47, X11
PSLLQ  $32, X11
XORPS  X0, X11
PADDD  X11, X2
PSRLQ  $8, X2
PSHUFB X6, X2
MOVL   X2, (DI)
```
-/
def opOverStore4 (dst : Fin 4 → Nat) (x2 x9 x10 : XMM) : Fin 4 → Nat :=
  let x0 := scatterAndMulBy0x101 dst
  let x11 := x9
  let x11 := psubl x2 x11
  let x0 := pmulld x11 x0
  let x11 := x0
  let x11 := psrlq 32 x11
  let x0 := pmuludq x10 x0
  let x11 := pmuludq x10 x11
  let x0 := psrlq 47 x0
  let x11 := psrlq 47 x11
  let x11 := psllq 32 x11
  let x11 := xorps x0 x11
  let x2 := paddd x11 x2
  let x2 := psrlq 8 x2
  storeLowBytes x2

/-- The blend that the comment of `opOverStore1` and `opOverStore4` states, over the
natural numbers:
```
dstA := uint32(dst[0]) * 0x101
outA := dstA*(0xffff-maskA)/0xffff + maskA
dst[0] = uint8(outA >> 8)
```
-/
def overBlend (d maskA : Nat) : Nat :=
  ((d * 0x101 * (0xffff - maskA) / 0xffff + maskA) >>> 8) % 256

end vector

namespace vector

/-! ## Floating-point lanes

A finite float32 is kept unpacked, as sign, integer significand and exponent. The
instructions below are exact on these values: a product is formed exactly and then rounded
to 24 significant bits in the rounding mode that `flSetup` selects. -/

/-- A finite float32 value `(-1) ^ sign * mant * 2 ^ exp`, with `mant < 2 ^ 24`. -/
structure F32 where
  sign : Bool
  mant : Nat
  exp : Int
deriving DecidableEq

/-- The finite float32 with bit pattern `b`: sign bit 31, biased exponent in bits 23 to 30,
fraction in bits 0 to 22; a zero exponent field is a subnormal. -/
def F32.ofBits (b : Nat) : F32 :=
  if b / 2 ^ 23 % 2 ^ 8 = 0 then ⟨decide (b / 2 ^ 31 % 2 = 1), b % 2 ^ 23, -149⟩
  else ⟨decide (b / 2 ^ 31 % 2 = 1), 2 ^ 23 + b % 2 ^ 23, ((b / 2 ^ 23 % 2 ^ 8 : Nat) : Int) - 150⟩

/-- The value of `a` in units of `2 ^ m`, for `m` at most the exponent of `a`. -/
def F32.scaled (a : F32) (m : Int) : Int :=
  if a.sign then -((a.mant * 2 ^ (a.exp - m).toNat : Nat) : Int)
  else ((a.mant * 2 ^ (a.exp - m).toNat : Nat) : Int)

/-- Whether the value of `a` is below the value of `b`. -/
def F32.lt (a b : F32) : Bool :=
  decide (a.scaled (min a.exp b.exp) < b.scaled (min a.exp b.exp))

/-- The number of bits of `m`, by halving at most `fuel` times. -/
def bitLengthAux : Nat → Nat → Nat
  | 0, _ => 0
  | fuel + 1, m => if m = 0 then 0 else bitLengthAux fuel (m / 2) + 1

/-- The number of significant bits of `m`: the least `n` with `m < 2 ^ n`. -/
def bitLength (m : Nat) : Nat := bitLengthAux m m

/-- The float32 nearest to `(-1) ^ s * m * 2 ^ e` in the direction of zero: the
significand keeps its 24 leading bits, a value below the subnormal range is cut at
`2 ^ -149`, and a value of `2 ^ 128` or more becomes the largest finite float32. -/
def F32.roundTowardZero (s : Bool) (m : Nat) (e : Int) : F32 :=
  if m ≠ 0 ∧ 128 < e + bitLength m then ⟨s, 2 ^ 24 - 1, 104⟩
  else ⟨s, m / 2 ^ (max e (max (e + bitLength m - 24) (-149)) - e).toNat,
    max e (max (e + bitLength m - 24) (-149))⟩

/-- An XMM register as four float32 lanes. -/
abbrev XMMf := Fin 4 → F32

/-- The float32 register that holds the value with bit pattern `b` in all four lanes. -/
def XMMf.splat (b : Nat) : XMMf := fun _ => F32.ofBits b

/-- `flAlmost256 := XMM(0x437fffff repeated four times)`, 255.99998 as a float32. -/
def flAlmost256 : XMMf := XMMf.splat 0x437fffff

/-- `flAlmost65536 := XMM(0x477fffff repeated four times)`, 255.99998 * 256 as a
float32. -/
def flAlmost65536 : XMMf := XMMf.splat 0x477fffff

/-- `flOne := XMM(0x3f800000 repeated four times)`, 1 as a float32. -/
def flOne : XMMf := XMMf.splat 0x3f800000

/-- `flSignMask := XMM(0x7fffffff repeated four times)`, all but the sign bit of a
float32; a bit mask, not a number. -/
def flSignMask : XMM := XMM.splat 0x7fffffff

/-- `ANDPS src, dst` for a mask `dst` whose 31 low bits are all set, as in `flSignMask`:
exponent and fraction of `src` pass unchanged, the sign bit is the conjunction of the
sign bit of `src` and bit 31 of the mask. -/
def andps (src : XMMf) (dst : XMM) : XMMf := fun i =>
  { src i with sign := (src i).sign && (dst i).testBit 31 }

/-- `MINPS src, dst`: each lane of `dst` if it is below the lane of `src`, else the lane
of `src`. -/
def minps (src dst : XMMf) : XMMf := fun i => if (dst i).lt (src i) then dst i else src i

/-- `MULPS src, dst`: the product of each pair of lanes, rounded toward zero: `flSetup`
sets bits 13 and 14 of MXCSR, and that rounding control governs `MULPS` as well as
`CVTPS2PL`. -/
def mulps (src dst : XMMf) : XMMf := fun i =>
  F32.roundTowardZero (xor (dst i).sign (src i).sign) ((dst i).mant * (src i).mant)
    ((dst i).exp + (src i).exp)

/-- The integer part of the magnitude of `a`. -/
def F32.truncNat (a : F32) : Nat :=
  if 0 ≤ a.exp then a.mant * 2 ^ a.exp.toNat else a.mant / 2 ^ (-a.exp).toNat

/-- `CVTPS2PL src, dst` under the "Round To Zero" control of `flSetup`: each lane is
truncated to a signed 32-bit integer; a value out of range gives `0x80000000`. -/
def cvtps2pl (src : XMMf) : XMM := fun i =>
  if (if (src i).sign then -((src i).truncNat : Int) else ((src i).truncNat : Int)) < -2 ^ 31
      ∨ 2 ^ 31 ≤ (if (src i).sign then -((src i).truncNat : Int) else ((src i).truncNat : Int))
  then 0x80000000
  else ofInt32 (if (src i).sign then -((src i).truncNat : Int) else ((src i).truncNat : Int))

/-- `flClampAndScale256`: from `X1` (the accumulator) and the constants in `X3`, `X4` and
`X5`, the value left in `X2`.
```
MOVOU X5, X2
ANDPS X1, X2
MINPS X4, X2
MULPS X3, X2
```
-/
def flClampAndScale256 (x1 x3 x4 : XMMf) (x5 : XMM) : XMMf :=
  let x2 := x5
  let x2 := andps x1 x2
  let x2 := minps x4 x2
  let x2 := mulps x3 x2
  x2

/-- `flClampAndScale65536`: the same four instructions as `flClampAndScale256`; the
instance loads `flAlmost65536` into `X3`.
```
MOVOU X5, X2
ANDPS X1, X2
MINPS X4, X2
MULPS X3, X2
```
-/
def flClampAndScale65536 (x1 x3 x4 : XMMf) (x5 : XMM) : XMMf :=
  let x2 := x5
  let x2 := andps x1 x2
  let x2 := minps x4 x2
  let x2 := mulps x3 x2
  x2

/-- `flConvertToInt32`: `CVTPS2PL X2, X2`. -/
def flConvertToInt32 (x2 : XMMf) : XMM := cvtps2pl x2

/-- The float32 that holds the coverage `x / 2 ^ 20` exactly, for `|x| < 2 ^ 24`. -/
def F32.ofCoverage (x : Int) : F32 := ⟨decide (x < 0), x.natAbs, -20⟩

end vector

namespace opentype

/-! ## Types of the packages that `face.go` imports

`Face` talks to the font decoder `sfnt.Font` and to the rasterizer `vector.Rasterizer`.
Both are collaborators whose code is outside `face.go`: they are parameters of the
embedding, a record of functions each. The decoder answers as a function of the
arguments of the call; the scratch `sfnt.Buffer` that every call receives is kept in the
`Face` as the history of the calls that received it. -/

/-- `fixed.Int26_6`: a signed 26.6 fixed-point number, an int32 holding `val / 64`. -/
structure Int26_6 where
  val : Int
  lo : -2147483648 ≤ val
  hi : val ≤ 2147483647
deriving DecidableEq

/-- The zero value of `fixed.Int26_6`. -/
def Int26_6.zero : Int26_6 := ⟨0, by decide, by decide⟩

/-- Modelled from the spec: `fixed.Int26_6.Floor`, declared in the fixed-point package
and not in `face.go`; "flooring the minimum corner": the greatest integer at most
`val / 64`. -/
def Int26_6.Floor (x : Int26_6) : Int := x.val / 64

/-- Modelled from the spec: `fixed.Int26_6.Ceil`, declared in the fixed-point package
and not in `face.go`; "ceiling the maximum corner": the least integer at least
`val / 64`. -/
def Int26_6.Ceil (x : Int26_6) : Int := -((-x.val) / 64)

/-- The Go type `int` on amd64: the value of an arithmetic result wrapped into 64 bits,
two's complement. -/
def int (x : Int) : Int := (x + 2 ^ 63) % 2 ^ 64 - 2 ^ 63

/-- `rune`: a code point. -/
abbrev rune := Int

/-- `error`: `none` is `nil`. -/
abbrev error := Option String

/-- `fixed.Point26_6`. -/
structure Point26_6 where
  X : Int26_6
  Y : Int26_6
deriving DecidableEq

/-- `fixed.Rectangle26_6`. -/
structure Rectangle26_6 where
  Min : Point26_6
  Max : Point26_6
deriving DecidableEq

/-- `image.Point`. -/
structure Point where
  X : Int
  Y : Int
deriving DecidableEq

/-- `image.Rectangle`. -/
structure Rectangle where
  Min : Point
  Max : Point
deriving DecidableEq

/-- `font.Hinting`. -/
inductive Hinting where
  | HintingNone
  | HintingVertical
  | HintingFull
deriving DecidableEq

/-- Modelled from the spec: `font.Metrics`, declared in the font package and not in
`face.go`; "ascent, descent, height, cap-height-like fields". -/
structure Metrics where
  Height : Int26_6
  Ascent : Int26_6
  Descent : Int26_6
  XHeight : Int26_6
  CapHeight : Int26_6
deriving DecidableEq

/-- `font.Metrics{}`: the zero value. -/
def Metrics.zero : Metrics :=
  ⟨Int26_6.zero, Int26_6.zero, Int26_6.zero, Int26_6.zero, Int26_6.zero⟩

/-- `sfnt.GlyphIndex`. -/
abbrev GlyphIndex := Nat

/-- `sfnt.SegmentOp`. -/
inductive SegmentOp where
  | SegmentOpMoveTo
  | SegmentOpLineTo
  | SegmentOpQuadTo
  | SegmentOpCubeTo
deriving DecidableEq

/-- `sfnt.Segment`: an operator and its three argument points. -/
structure Segment where
  Op : SegmentOp
  Args : Fin 3 → Point26_6

/-- `sfnt.Units`: an uint16 in font design units. -/
structure Units where
  val : Nat
  hi : val ≤ 65535
deriving DecidableEq

/-- The Go conversion `fixed.Int26_6(u)` of an `sfnt.Units` value: the integer is kept as
it is, so `u` font units are read as `u / 64` pixels. -/
def Int26_6.ofUnits (u : Units) : Int26_6 :=
  ⟨(u.val : Int), by have := u.hi; omega, by have := u.hi; omega⟩

/-- The font decoder `*sfnt.Font`, as far as `Face` calls it. Each method returns its
values together with its error, as in Go. The `*sfnt.Buffer` argument and the
`*LoadGlyphOptions` argument (always `nil` here) are left out of the signatures. -/
structure Font where
  GlyphIndex : rune → opentype.GlyphIndex × error
  LoadGlyph : opentype.GlyphIndex → Int26_6 → List Segment × error
  GlyphBounds : opentype.GlyphIndex → Int26_6 → Hinting → Rectangle26_6 × Int26_6 × error
  GlyphAdvance : opentype.GlyphIndex → Int26_6 → Hinting → Int26_6 × error
  Kern : opentype.GlyphIndex → opentype.GlyphIndex → Int26_6 → Hinting → Int26_6 × error
  Metrics : Int26_6 → Hinting → opentype.Metrics × error
  UnitsPerEm : Units

/-- One call of a decoder method that receives the scratch buffer `&f.buf`, with the
arguments it was given. -/
inductive Call where
  | GlyphIndex (r : rune)
  | LoadGlyph (x : opentype.GlyphIndex) (ppem : Int26_6)
  | GlyphBounds (x : opentype.GlyphIndex) (ppem : Int26_6) (h : Hinting)
  | GlyphAdvance (x : opentype.GlyphIndex) (ppem : Int26_6) (h : Hinting)
  | Kern (x0 x1 : opentype.GlyphIndex) (ppem : Int26_6) (h : Hinting)
  | Metrics (ppem : Int26_6) (h : Hinting)
deriving DecidableEq

/-- `draw.Op`. -/
inductive DrawOp where
  | Over
  | Src
deriving DecidableEq

/-- A `float32` coordinate that `Glyph` passes to the rasterizer, kept symbolic: the
value `float32(0 - min) + float32(arg)/64`, with `origin = 0 - min`. -/
structure Coord where
  origin : Int
  arg : Int26_6
deriving DecidableEq

/-- A `[]uint8`: length, capacity and the bytes of the backing array. -/
structure Slice where
  len : Nat
  cap : Nat
  byte : Nat → Nat

/-- The nil slice. -/
def Slice.nil : Slice := ⟨0, 0, fun _ => 0⟩

/-- `make([]uint8, n)`: panics (`none`) for a negative `n`; running out of memory is not
part of the embedding. -/
def Slice.make (n : Int) : Option Slice :=
  if n < 0 then none else some ⟨n.toNat, n.toNat, fun _ => 0⟩

/-- `s[:n]`: panics (`none`) unless `0 ≤ n ≤ cap(s)`. -/
def Slice.reslice (s : Slice) (n : Int) : Option Slice :=
  if n < 0 ∨ (s.cap : Int) < n then none else some { s with len := n.toNat }

/-- `image.Alpha`. -/
structure Alpha where
  Pix : Slice
  Stride : Int
  Rect : Rectangle

/-- `(*image.Alpha).Bounds`. -/
def Alpha.Bounds (p : Alpha) : Rectangle := p.Rect

/-- The rasterizer `vector.Rasterizer`, as far as `Face` calls it, on a state `ρ`. Every
method returns: a panic inside the rasterizer is not part of the embedding. `SetDrawOp` is
the assignment `f.rast.DrawOp = op`; `Draw` returns the bytes it leaves in the
destination, by index into `Pix`. -/
structure Rasterizer (ρ : Type) where
  Reset : ρ → Int → Int → ρ
  SetDrawOp : ρ → DrawOp → ρ
  MoveTo : ρ → Coord → Coord → ρ
  LineTo : ρ → Coord → Coord → ρ
  QuadTo : ρ → Coord → Coord → Coord → Coord → ρ
  CubeTo : ρ → Coord → Coord → Coord → Coord → Coord → Coord → ρ
  Draw : ρ → Alpha → Rectangle → ρ × (Nat → Nat)

/-! ## `Face` -/

/-- `Face`: the fields of the struct; the pointer `f *sfnt.Font` is the `Font` argument
of each method. -/
structure Face (ρ : Type) where
  hinting : Hinting
  scale : Int26_6
  metrics : Metrics
  metricsSet : Bool
  buf : List Call
  rast : ρ
  mask : Alpha

/-- What `Glyph` returns; `mask` is `nil` or the pointer `&f.mask`, given as the value
of `f.mask` when `Glyph` returns. -/
structure GlyphResult where
  dr : Rectangle
  mask : Option Alpha
  maskp : Point
  advance : Int26_6
  ok : Bool

/-- `image.Rectangle{}`. -/
def Rectangle.zero : Rectangle := ⟨⟨0, 0⟩, ⟨0, 0⟩⟩

/-- `image.Point{}`. -/
def Point.zero : Point := ⟨0, 0⟩

/-- `Close`. -/
def Face.Close {ρ : Type} (_f : Face ρ) : error := none

/-- `Metrics`.
```go
if !f.metricsSet {
	var err error
	f.metrics, err = f.f.Metrics(&f.buf, f.scale, f.hinting)
	if err != nil {
		f.metrics = font.Metrics{}
	}
	f.metricsSet = true
}
return f.metrics
```
-/
def Face.Metrics {ρ : Type} (font : Font) (f : Face ρ) : opentype.Metrics × Face ρ :=
  if ¬ f.metricsSet then
    let res := font.Metrics f.scale f.hinting
    let f := { f with metrics := res.1, buf := f.buf ++ [Call.Metrics f.scale f.hinting] }
    let f := if res.2 ≠ none then { f with metrics := opentype.Metrics.zero } else f
    let f := { f with metricsSet := true }
    (f.metrics, f)
  else
    (f.metrics, f)

/-- `index`.
```go
x, _ := f.f.GlyphIndex(&f.buf, r)
return x
```
-/
def Face.index {ρ : Type} (font : Font) (f : Face ρ) (r : rune) :
    opentype.GlyphIndex × Face ρ :=
  ((font.GlyphIndex r).1, { f with buf := f.buf ++ [Call.GlyphIndex r] })

/-- `Kern`.
```go
x0 := f.index(r0)
x1 := f.index(r1)
k, err := f.f.Kern(&f.buf, x0, x1, fixed.Int26_6(f.f.UnitsPerEm()), f.hinting)
if err != nil {
	return 0
}
return k
```
-/
def Face.Kern {ρ : Type} (font : Font) (f : Face ρ) (r0 r1 : rune) : Int26_6 × Face ρ :=
  let x0 := (f.index font r0).1
  let f := (f.index font r0).2
  let x1 := (f.index font r1).1
  let f := (f.index font r1).2
  let res := font.Kern x0 x1 (Int26_6.ofUnits font.UnitsPerEm) f.hinting
  let f := { f with
    buf := f.buf ++ [Call.Kern x0 x1 (Int26_6.ofUnits font.UnitsPerEm) f.hinting] }
  if res.2 ≠ none then (Int26_6.zero, f) else (res.1, f)

/-- `GlyphBounds`.
```go
idx := f.index(r)
bounds, advance, err := f.f.GlyphBounds(&f.buf, idx, f.scale, f.hinting)
return bounds, advance, err == nil
```
-/
def Face.GlyphBounds {ρ : Type} (font : Font) (f : Face ρ) (r : rune) :
    (Rectangle26_6 × Int26_6 × Bool) × Face ρ :=
  let idx := (f.index font r).1
  let f := (f.index font r).2
  let res := font.GlyphBounds idx f.scale f.hinting
  let f := { f with buf := f.buf ++ [Call.GlyphBounds idx f.scale f.hinting] }
  ((res.1, res.2.1, decide (res.2.2 = none)), f)

/-- `GlyphAdvance`.
```go
idx := f.index(r)
advance, err := f.f.GlyphAdvance(&f.buf, idx, f.scale, f.hinting)
return advance, err == nil
```
-/
def Face.GlyphAdvance {ρ : Type} (font : Font) (f : Face ρ) (r : rune) :
    (Int26_6 × Bool) × Face ρ :=
  let idx := (f.index font r).1
  let f := (f.index font r).2
  let res := font.GlyphAdvance idx f.scale f.hinting
  let f := { f with buf := f.buf ++ [Call.GlyphAdvance idx f.scale f.hinting] }
  ((res.1, decide (res.2 = none)), f)

/-- The body of the loop `for _, seg := range segments` of `Glyph`: one segment is
replayed on the rasterizer, with the origin shifted by `originX = float32(0 - xmin)` and
`originY = float32(0 - ymin)`. -/
def Face.replay {ρ : Type} (R : Rasterizer ρ) (originX originY : Int) (z : ρ)
    (seg : Segment) : ρ :=
  match seg.Op with
  | SegmentOp.SegmentOpMoveTo =>
    R.MoveTo z ⟨originX, (seg.Args 0).X⟩ ⟨originY, (seg.Args 0).Y⟩
  | SegmentOp.SegmentOpLineTo =>
    R.LineTo z ⟨originX, (seg.Args 0).X⟩ ⟨originY, (seg.Args 0).Y⟩
  | SegmentOp.SegmentOpQuadTo =>
    R.QuadTo z ⟨originX, (seg.Args 0).X⟩ ⟨originY, (seg.Args 0).Y⟩
      ⟨originX, (seg.Args 1).X⟩ ⟨originY, (seg.Args 1).Y⟩
  | SegmentOp.SegmentOpCubeTo =>
    R.CubeTo z ⟨originX, (seg.Args 0).X⟩ ⟨originY, (seg.Args 0).Y⟩
      ⟨originX, (seg.Args 1).X⟩ ⟨originY, (seg.Args 1).Y⟩
      ⟨originX, (seg.Args 2).X⟩ ⟨originY, (seg.Args 2).Y⟩

/-- The part of `Glyph` after the call of `f.GlyphBounds`, from `bounds`, `advance` and
the loaded `segments`: `none` is a run-time panic of the reslice `f.mask.Pix[:npix]` or
of `make`.
```go
xmin := bounds.Min.X.Floor()
ymin := bounds.Min.Y.Floor()
xmax := bounds.Max.X.Ceil()
ymax := bounds.Max.Y.Ceil()
width, height := xmax-xmin, ymax-ymin
originX := float32(0 - xmin)
originY := float32(0 - ymin)
f.rast.Reset(width, height)
f.rast.DrawOp = draw.Src
for _, seg := range segments { ... }
npix := width * height
if cap(f.mask.Pix) < npix {
	f.mask.Pix = make([]uint8, 2*npix)
}
f.mask.Pix = f.mask.Pix[:npix]
f.mask.Stride = width
f.mask.Rect.Min.X = 0
f.mask.Rect.Min.Y = 0
f.mask.Rect.Max.X = width
f.mask.Rect.Max.Y = height
f.rast.Draw(&f.mask, f.mask.Bounds(), image.Opaque, image.Point{})
ix := dot.X.Floor()
iy := dot.Y.Floor()
dr.Min = image.Point{X: ix + xmin, Y: iy + ymin}
dr.Max = image.Point{X: dr.Min.X + width, Y: dr.Min.Y + height}
return dr, &f.mask, f.mask.Rect.Min, advance, true
```
-/
def Face.rasterize {ρ : Type} (R : Rasterizer ρ) (f : Face ρ) (dot : Point26_6)
    (segments : List Segment) (bounds : Rectangle26_6) (advance : Int26_6) :
    Option (GlyphResult × Face ρ) :=
  let xmin := bounds.Min.X.Floor
  let ymin := bounds.Min.Y.Floor
  let xmax := bounds.Max.X.Ceil
  let ymax := bounds.Max.Y.Ceil
  let width := int (xmax - xmin)
  let height := int (ymax - ymin)
  let originX := int (0 - xmin)
  let originY := int (0 - ymin)
  let rast := R.Reset f.rast width height
  let rast := R.SetDrawOp rast DrawOp.Src
  let rast := segments.foldl (Face.replay R originX originY) rast
  let npix := int (width * height)
  let pix := if (f.mask.Pix.cap : Int) < npix then Slice.make (int (2 * npix))
    else some f.mask.Pix
  match pix.bind (fun p => p.reslice npix) with
  | none => none
  | some pix =>
    let mask : Alpha := { Pix := pix, Stride := width, Rect := ⟨⟨0, 0⟩, ⟨width, height⟩⟩ }
    let drawn := R.Draw rast mask mask.Bounds
    let mask := { mask with Pix := { mask.Pix with byte := drawn.2 } }
    let f := { f with rast := drawn.1, mask := mask }
    let ix := dot.X.Floor
    let iy := dot.Y.Floor
    let drMin : Point := ⟨int (ix + xmin), int (iy + ymin)⟩
    let drMax : Point := ⟨int (drMin.X + width), int (drMin.Y + height)⟩
    some (⟨⟨drMin, drMax⟩, some f.mask, f.mask.Rect.Min, advance, true⟩, f)

/-- `Glyph`: `none` is a run-time panic.
```go
x, err := f.f.GlyphIndex(&f.buf, r)
if err != nil {
	return image.Rectangle{}, nil, image.Point{}, 0, false
}
segments, err := f.f.LoadGlyph(&f.buf, x, f.scale, nil)
if err != nil {
	return image.Rectangle{}, nil, image.Point{}, 0, false
}
bounds, advance, ok := f.GlyphBounds(r)
...
return dr, &f.mask, f.mask.Rect.Min, advance, true
```
The `ok` that `f.GlyphBounds` returns is assigned to the result variable and not read:
the final `return` names `true`. -/
def Face.Glyph {ρ : Type} (font : Font) (R : Rasterizer ρ) (f : Face ρ) (dot : Point26_6)
    (r : rune) : Option (GlyphResult × Face ρ) :=
  let res := font.GlyphIndex r
  let f := { f with buf := f.buf ++ [Call.GlyphIndex r] }
  if res.2 ≠ none then
    some (⟨Rectangle.zero, none, Point.zero, Int26_6.zero, false⟩, f)
  else
    let x := res.1
    let loaded := font.LoadGlyph x f.scale
    let f := { f with buf := f.buf ++ [Call.LoadGlyph x f.scale] }
    if loaded.2 ≠ none then
      some (⟨Rectangle.zero, none, Point.zero, Int26_6.zero, false⟩, f)
    else
      let segments := loaded.1
      let gb := f.GlyphBounds font r
      let bounds := gb.1.1
      let advance := gb.1.2.1
      let _ok := gb.1.2.2
      let f := gb.2
      Face.rasterize R f dot segments bounds advance

/-- Successive `Glyph` calls on the same `Face`, each on the state the previous one
left; `none` if one of them panics. -/
def Face.GlyphSeq {ρ : Type} (font : Font) (R : Rasterizer ρ) :
    Face ρ → List (Point26_6 × rune) → Option (Face ρ)
  | f, [] => some f
  | f, c :: cs =>
    match Face.Glyph font R f c.1 c.2 with
    | none => none
    | some out => Face.GlyphSeq font R out.2 cs

/-- Successive `Metrics` calls on the same `Face`, the `k`-th with the decoder
`fonts[k]`: the values returned, and the final state. -/
def Face.MetricsSeq {ρ : Type} : Face ρ → List Font → List opentype.Metrics × Face ρ
  | f, [] => ([], f)
  | f, font :: fonts =>
    ((Face.Metrics font f).1 :: (Face.MetricsSeq (Face.Metrics font f).2 fonts).1,
      (Face.MetricsSeq (Face.Metrics font f).2 fonts).2)

/-- The claim about `Kern` as the specification words it: both glyph indices are looked
up, a failed lookup gives 0, the kerning is requested at the scale of the face, a failed
kerning lookup gives 0. -/
def Face.KernSpec {ρ : Type} (font : Font) (f : Face ρ) (r0 r1 : rune) : Int26_6 :=
  if (font.GlyphIndex r0).2 ≠ none ∨ (font.GlyphIndex r1).2 ≠ none then Int26_6.zero
  else if (font.Kern (font.GlyphIndex r0).1 (font.GlyphIndex r1).1 f.scale f.hinting).2 ≠ none
  then Int26_6.zero
  else (font.Kern (font.GlyphIndex r0).1 (font.GlyphIndex r1).1 f.scale f.hinting).1

end opentype

namespace opentype

/-! ## Concrete collaborators, for evaluating the methods -/

namespace Example

/-- The 26.6 number `v / 64` for a small natural `v`. -/
def fix (v : Nat) (h : v ≤ 2147483647) : Int26_6 := ⟨(v : Int), by omega, by omega⟩

/-- A rasterizer without state that leaves every byte zero. -/
def rast : Rasterizer Unit where
  Reset := fun _ _ _ => ()
  SetDrawOp := fun _ _ => ()
  MoveTo := fun _ _ _ => ()
  LineTo := fun _ _ _ => ()
  QuadTo := fun _ _ _ _ _ => ()
  CubeTo := fun _ _ _ _ _ _ _ => ()
  Draw := fun _ _ _ => ((), fun _ => 0)

/-- A `Face` as `NewFace` leaves it for 12 points at 72 DPI: scale `12 * 64 = 768`, no
hinting, every other field at its zero value. -/
def face : Face Unit where
  hinting := Hinting.HintingNone
  scale := fix 768 (by decide)
  metrics := Metrics.zero
  metricsSet := false
  buf := []
  rast := ()
  mask := ⟨Slice.nil, 0, Rectangle.zero⟩

/-- The pen position `(10.5, 20)` in pixels. -/
def dot : Point26_6 := ⟨fix 672 (by decide), fix 1280 (by decide)⟩

/-- A decoder that knows the glyphs of `A` (65) and `B` (66) and fails for every other
code point. The box of each glyph is `(1.5, 0.25)-(7, 9.5)` pixels, the advance 8 pixels;
the kerning of a pair is 50/64 at 1000 pixels per em and 38/64 at any other scale. -/
def font : Font where
  GlyphIndex := fun r =>
    if r = 65 then (1, none) else if r = 66 then (2, none) else (0, some "glyph not found")
  LoadGlyph := fun _ _ =>
    ([⟨SegmentOp.SegmentOpMoveTo, fun _ => ⟨fix 96 (by decide), fix 16 (by decide)⟩⟩,
      ⟨SegmentOp.SegmentOpLineTo, fun _ => ⟨fix 448 (by decide), fix 608 (by decide)⟩⟩], none)
  GlyphBounds := fun _ _ _ =>
    (⟨⟨fix 96 (by decide), fix 16 (by decide)⟩, ⟨fix 448 (by decide), fix 608 (by decide)⟩⟩,
      fix 512 (by decide), none)
  GlyphAdvance := fun _ _ _ => (fix 512 (by decide), none)
  Kern := fun _ _ ppem _ =>
    if ppem.val = 1000 then (fix 50 (by decide), none) else (fix 38 (by decide), none)
  Metrics := fun _ _ =>
    (⟨fix 900 (by decide), fix 700 (by decide), fix 200 (by decide), fix 350 (by decide),
      fix 500 (by decide)⟩, none)
  UnitsPerEm := ⟨1000, by decide⟩

/-- The decoder `font`, except that the box of every glyph is the single point
`(0.5, 0.5)`: a box of zero area. -/
def pointFont : Font :=
  { font with
    GlyphBounds := fun _ _ _ =>
      (⟨⟨fix 32 (by decide), fix 32 (by decide)⟩, ⟨fix 32 (by decide), fix 32 (by decide)⟩⟩,
        fix 512 (by decide), none) }

/-- The decoder `font`, except that `GlyphBounds` fails, with zero values beside its
error. -/
def boundsFailFont : Font :=
  { font with
    GlyphBounds := fun _ _ _ =>
      (⟨⟨Int26_6.zero, Int26_6.zero⟩, ⟨Int26_6.zero, Int26_6.zero⟩⟩, Int26_6.zero,
        some "bad glyph data") }

/-- The decoder `font`, except that `Metrics` fails, with the values of `font` beside
its error. -/
def metricsFailFont : Font :=
  { font with Metrics := fun ppem h => ((font.Metrics ppem h).1, some "bad metrics") }

/-- The `Face` that `Glyph` leaves after rasterizing `A` with `font` on `face`: four
decoder calls, and a mask of `6 x 10` pixels in a buffer of capacity 120. -/
def faceA : Face Unit :=
  { face with
    buf := [Call.GlyphIndex 65, Call.LoadGlyph 1 (fix 768 (by decide)), Call.GlyphIndex 65,
      Call.GlyphBounds 1 (fix 768 (by decide)) Hinting.HintingNone]
    mask := ⟨⟨60, 120, fun _ => 0⟩, 6, ⟨⟨0, 0⟩, ⟨6, 10⟩⟩⟩ }

/-- The `Face` that `Glyph` leaves after rasterizing `B` with `font` on `faceA`. -/
def faceAB : Face Unit :=
  { faceA with
    buf := faceA.buf ++ [Call.GlyphIndex 66, Call.LoadGlyph 2 (fix 768 (by decide)),
      Call.GlyphIndex 66, Call.GlyphBounds 2 (fix 768 (by decide)) Hinting.HintingNone] }

/-- What `Glyph` returns for `B` with `font` on `faceA` at the pen position `dot`. -/
def glyphB : GlyphResult :=
  ⟨⟨⟨11, 20⟩, ⟨17, 30⟩⟩, some faceAB.mask, ⟨0, 0⟩, fix 512 (by decide), true⟩

end Example

end opentype

/-! # Theorems -/

namespace vector

/-! ## Lanes and quadwords -/

theorem XMM.quad_ofQuads (q : Fin 2 → Nat) (k : Fin 2) :
    (XMM.ofQuads q).quad k = q k % 2 ^ 64 := by
  fin_cases k <;> simp [XMM.quad, XMM.lo, XMM.hi, XMM.ofQuads] <;> omega

theorem toInt32_ofInt32 (x : Int) (h1 : -2 ^ 31 ≤ x) (h2 : x < 2 ^ 31) :
    toInt32 (ofInt32 x) = x := by
  simp only [toInt32, ofInt32]
  split <;> omega

/-! ## The fixed-point clamp-and-scale -/

theorem pabsd_eq_natAbs (x1 : XMM) (i : Fin 4) :
    pabsd x1 i = (toInt32 (x1 i)).natAbs ∧ (toInt32 (x1 i)).natAbs ≤ 2 ^ 31 := by
  simp only [pabsd, toInt32]
  split <;> omega

theorem fxClampAndScale256_lane (x1 : XMM) (i : Fin 4) :
    fxClampAndScale256 x1 fxLoadXMMRegs256 i = min ((toInt32 (x1 i)).natAbs >>> 12) 0xff := by
  obtain ⟨e, b⟩ := pabsd_eq_natAbs x1 i
  simp only [fxClampAndScale256, pminud, psrld, fxLoadXMMRegs256, fxAlmost256, XMM.splat, e,
    Nat.shiftRight_eq_div_pow]
  omega

theorem fxClampAndScale65536_lane (x1 : XMM) (i : Fin 4) :
    fxClampAndScale65536 x1 fxLoadXMMRegs65536 i
      = min ((toInt32 (x1 i)).natAbs >>> 4) 0xffff := by
  obtain ⟨e, b⟩ := pabsd_eq_natAbs x1 i
  simp only [fxClampAndScale65536, pminud, psrld, fxLoadXMMRegs65536, fxAlmost65536,
    XMM.splat, e, Nat.shiftRight_eq_div_pow]
  omega

/-! ## The division by 0xffff and the Over store -/

theorem shrl_mull_inverseFFFF (p : Nat) (hp : p < 2 ^ 32) :
    shrl 15 (mull p (movl 0x80008001)).1 = p / 0xffff := by
  have hq : p * 2147516417 / 2 ^ 47 = p / 65535 := by omega
  simp only [shrl, mull, movl, Nat.shiftRight_eq_div_pow, Nat.mod_eq_of_lt hp]
  have h1 : p * 2147516417 / 2 ^ 32 < 2 ^ 32 := by omega
  have h2 : (2147516417 : Nat) % 2 ^ 32 % 2 ^ 32 = 2147516417 := by norm_num
  rw [h2, Nat.mod_eq_of_lt h1, Nat.div_div_eq_div_mul]
  exact hq


theorem overBlend_bounds (d m : Nat) (hd : d ≤ 255) (hm : m ≤ 0xffff) :
    d * 0x101 * (0xffff - m) < 2 ^ 32 ∧ d * 0x101 * (0xffff - m) / 0xffff + m ≤ 0xffff := by
  have b : d * 0x101 * (0xffff - m) ≤ 0xffff * 0xffff :=
    Nat.mul_le_mul (by omega) (by omega)
  have b2 : d * 0x101 * (0xffff - m) ≤ 0xffff * (0xffff - m) :=
    Nat.mul_le_mul_right _ (by omega)
  constructor <;> omega

theorem overBlend_eq (d m : Nat) (hd : d ≤ 255) (hm : m ≤ 0xffff) :
    overBlend d m = (d * 0x101 * (0xffff - m) / 0xffff + m) / 256 := by
  obtain ⟨-, b⟩ := overBlend_bounds d m hd hm
  simp only [overBlend, Nat.shiftRight_eq_div_pow]
  omega

/-- The scalar store, instruction by instruction: the first `MULL` leaves zero in `DX` and
the product in `AX`, and the byte stored is the quotient by 256 of the blended sum. -/
theorem opOverStore1_eq (d maskA : Nat) (hd : d ≤ 255) (hm : maskA ≤ 0xffff) :
    (mull (subl (movl maskA) (movl 0xffff)) (imull 0x101 (movblzx d))).1 = 0
    ∧ (mull (subl (movl maskA) (movl 0xffff)) (imull 0x101 (movblzx d))).2
        = d * 0x101 * (0xffff - maskA)
    ∧ opOverStore1 d maskA = (d * 0x101 * (0xffff - maskA) / 0xffff + maskA) / 256 := by
  obtain ⟨b1, b2⟩ := overBlend_bounds d maskA hd hm
  have e1 : imull 0x101 (movblzx d) = d * 0x101 := by
    simp only [imull, movblzx]
    rw [Nat.mod_eq_of_lt (a := d) (by omega)]
    omega
  have e2 : subl (movl maskA) (movl 0xffff) = 0xffff - maskA := by
    simp only [subl, movl]; omega
  have e3 : (0xffff - maskA) * (d * 0x101) = d * 0x101 * (0xffff - maskA) := Nat.mul_comm _ _
  have e4 : (mull (0xffff - maskA) (d * 0x101)).2 = d * 0x101 * (0xffff - maskA) := by
    simp only [mull]
    rw [Nat.mod_eq_of_lt (a := 0xffff - maskA) (by omega),
      Nat.mod_eq_of_lt (a := d * 0x101) (by omega), e3]
    omega
  have e5 : (mull (0xffff - maskA) (d * 0x101)).1 = 0 := by
    simp only [mull]
    rw [Nat.mod_eq_of_lt (a := 0xffff - maskA) (by omega),
      Nat.mod_eq_of_lt (a := d * 0x101) (by omega), e3]
    omega
  have e6 := shrl_mull_inverseFFFF (d * 0x101 * (0xffff - maskA)) b1
  refine ⟨by rw [e1, e2]; exact e5, by rw [e1, e2]; exact e4, ?_⟩
  simp only [opOverStore1, e1, e2, e4, e6]
  simp only [movb, shrl, addl, movl, Nat.shiftRight_eq_div_pow]
  omega

theorem XMM.lo_ofQuads (q : Fin 2 → Nat) (k : Fin 2) : (XMM.ofQuads q).lo k = q k % 2 ^ 32 := by
  fin_cases k <;> simp [XMM.lo, XMM.ofQuads]

theorem XMM.hi_ofQuads (q : Fin 2 → Nat) (k : Fin 2) :
    (XMM.ofQuads q).hi k = q k / 2 ^ 32 % 2 ^ 32 := by
  fin_cases k <;> simp [XMM.hi, XMM.ofQuads]

/-- After `PSRLQ $n`, the two lanes of a quadword with lanes `l` and `h`. -/
theorem psrlq_lanes (n : Nat) (x : XMM) (k : Fin 2) (l h : Nat)
    (hl : x.lo k = l) (hh : x.hi k = h) (l32 : l < 2 ^ 32) (h32 : h < 2 ^ 32) :
    (psrlq n x).lo k = (l + 2 ^ 32 * h) / 2 ^ n % 2 ^ 32
    ∧ (psrlq n x).hi k = (l + 2 ^ 32 * h) / 2 ^ n / 2 ^ 32 % 2 ^ 32 := by
  simp only [psrlq, XMM.lo_ofQuads, XMM.hi_ofQuads, XMM.quad, hl, hh,
    Nat.mod_eq_of_lt l32, Nat.mod_eq_of_lt h32, Nat.shiftRight_eq_div_pow, and_self]

/-- After `pmuludq inverseFFFF` and `PSRLQ $47`: the quotient in the low lane, zero in the
high lane. -/
theorem pmuludq_psrlq_lanes (x : XMM) (k : Fin 2) (p : Nat) (hp : x.lo k = p)
    (p32 : p < 2 ^ 32) :
    (psrlq 47 (pmuludq inverseFFFF x)).lo k = p / 0xffff
    ∧ (psrlq 47 (pmuludq inverseFFFF x)).hi k = 0 := by
  have h2 : (2147516417 : Nat) % 2 ^ 32 = 2147516417 := by norm_num
  have h3 : p * 2147516417 % 2 ^ 64 = p * 2147516417 := Nat.mod_eq_of_lt (by omega)
  have hq : p * 2147516417 / 2 ^ 47 = p / 65535 := by omega
  have e : inverseFFFF.lo k = 2147516417 := rfl
  simp only [psrlq, pmuludq, XMM.lo_ofQuads, XMM.hi_ofQuads, XMM.quad_ofQuads,
    hp, e, Nat.mod_eq_of_lt p32, Nat.shiftRight_eq_div_pow, h2, h3, hq]
  have hb : p / 65535 < 2 ^ 32 := by omega
  rw [Nat.mod_eq_of_lt hb, Nat.div_eq_of_lt hb]
  exact ⟨rfl, rfl⟩

/-- After `PSLLQ $32`, a quadword with lanes `l` and `0` has lanes `0` and `l`. -/
theorem psllq_lanes (x : XMM) (k : Fin 2) (l : Nat)
    (hl : x.lo k = l) (hh : x.hi k = 0) (l32 : l < 2 ^ 32) :
    (psllq 32 x).lo k = 0 ∧ (psllq 32 x).hi k = l := by
  simp only [psllq, XMM.lo_ofQuads, XMM.hi_ofQuads, XMM.quad, hl, hh,
    Nat.mod_eq_of_lt l32, Nat.shiftLeft_eq]
  constructor <;> omega

/-- The product `dstA * (0xffff - maskA)` that `PMULLD` leaves in each lane of `X0`. -/
theorem pmulld_lane (dst : Fin 4 → Nat) (x2 : XMM) (i : Fin 4)
    (hd : dst i ≤ 255) (hm : x2 i ≤ 0xffff) :
    pmulld (psubl x2 fxAlmost65536) (scatterAndMulBy0x101 dst) i
      = dst i * 0x101 * (0xffff - x2 i) := by
  have b : dst i * 0x101 * (0xffff - x2 i) ≤ 0xffff * 0xffff :=
    Nat.mul_le_mul (by omega) (by omega)
  have a1 : (dst i % 256 * 257) % 2 ^ 32 = dst i * 257 := by
    rw [Nat.mod_eq_of_lt (a := dst i) (by omega)]; omega
  have a2 : ((65535 % 2 ^ 32 + (2 ^ 32 - x2 i % 2 ^ 32)) % 2 ^ 32) % 2 ^ 32
      = 65535 - x2 i := by omega
  simp only [pmulld, psubl, scatterAndMulBy0x101, fxAlmost65536, XMM.splat, a1, a2]
  exact Nat.mod_eq_of_lt (by omega)

theorem xorps_lo (s d : XMM) (k : Fin 2) :
    (xorps s d).lo k = (d.lo k % 2 ^ 32) ^^^ (s.lo k % 2 ^ 32) := rfl

theorem xorps_hi (s d : XMM) (k : Fin 2) :
    (xorps s d).hi k = (d.hi k % 2 ^ 32) ^^^ (s.hi k % 2 ^ 32) := rfl

theorem paddd_lo (s d : XMM) (k : Fin 2) : (paddd s d).lo k = (d.lo k + s.lo k) % 2 ^ 32 := rfl

theorem paddd_hi (s d : XMM) (k : Fin 2) : (paddd s d).hi k = (d.hi k + s.hi k) % 2 ^ 32 := rfl

theorem storeLowBytes_lo (z : XMM) (k : Fin 2) :
    XMM.lo (storeLowBytes z) k = z.lo k % 256 := rfl

theorem storeLowBytes_hi (z : XMM) (k : Fin 2) :
    XMM.hi (storeLowBytes z) k = z.hi k % 256 := rfl

/-- The instructions of `opOverStore4` after `PMULLD`, on one quadword: from the two
products `pl`, `ph` in `X0` and the two coverages `ml`, `mh` in `X2`. -/
theorem opOverStore4_tail (x0 x2 : XMM) (k : Fin 2) (pl ph ml mh : Nat)
    (x0lo : x0.lo k = pl) (x0hi : x0.hi k = ph) (x2lo : x2.lo k = ml) (x2hi : x2.hi k = mh)
    (pl32 : pl < 2 ^ 32) (ph32 : ph < 2 ^ 32)
    (sl : pl / 0xffff + ml ≤ 0xffff) (sh : ph / 0xffff + mh ≤ 0xffff) :
    XMM.lo (storeLowBytes (psrlq 8 (paddd (xorps (psrlq 47 (pmuludq inverseFFFF x0))
      (psllq 32 (psrlq 47 (pmuludq inverseFFFF (psrlq 32 x0))))) x2))) k
        = (pl / 0xffff + ml) / 256
    ∧ XMM.hi (storeLowBytes (psrlq 8 (paddd (xorps (psrlq 47 (pmuludq inverseFFFF x0))
      (psllq 32 (psrlq 47 (pmuludq inverseFFFF (psrlq 32 x0))))) x2))) k
        = (ph / 0xffff + mh) / 256 := by
  -- X11 after PSRLQ $32
  obtain ⟨x11lo, -⟩ := psrlq_lanes 32 x0 k _ _ x0lo x0hi pl32 ph32
  have e1 : (pl + 2 ^ 32 * ph) / 2 ^ 32 % 2 ^ 32 = ph := by omega
  rw [e1] at x11lo
  -- the two quotients after pmuludq and PSRLQ $47
  obtain ⟨y0lo, y0hi⟩ := pmuludq_psrlq_lanes x0 k _ x0lo pl32
  obtain ⟨y11lo, y11hi⟩ := pmuludq_psrlq_lanes (psrlq 32 x0) k _ x11lo ph32
  -- X11 after PSLLQ $32 and XORPS
  obtain ⟨z11lo, z11hi⟩ := psllq_lanes _ k _ y11lo y11hi (by omega)
  have wlo : (xorps (psrlq 47 (pmuludq inverseFFFF x0))
      (psllq 32 (psrlq 47 (pmuludq inverseFFFF (psrlq 32 x0))))).lo k = pl / 0xffff := by
    rw [xorps_lo, z11lo, y0lo, Nat.zero_mod, Nat.zero_xor]
    omega
  have whi : (xorps (psrlq 47 (pmuludq inverseFFFF x0))
      (psllq 32 (psrlq 47 (pmuludq inverseFFFF (psrlq 32 x0))))).hi k = ph / 0xffff := by
    rw [xorps_hi, z11hi, y0hi, Nat.zero_mod, Nat.xor_zero]
    omega
  generalize xorps (psrlq 47 (pmuludq inverseFFFF x0))
      (psllq 32 (psrlq 47 (pmuludq inverseFFFF (psrlq 32 x0)))) = w at wlo whi ⊢
  -- X2 after PADDD
  have slo : (paddd w x2).lo k = pl / 0xffff + ml := by
    rw [paddd_lo, wlo, x2lo]; omega
  have shi : (paddd w x2).hi k = ph / 0xffff + mh := by
    rw [paddd_hi, whi, x2hi]; omega
  -- X2 after PSRLQ $8, and the stored low bytes
  obtain ⟨tlo, thi⟩ := psrlq_lanes 8 _ k _ _ slo shi (by omega) (by omega)
  constructor
  · rw [storeLowBytes_lo, tlo]
    omega
  · rw [storeLowBytes_hi, thi]
    omega

theorem opOverStore4_quad (dst : Fin 4 → Nat) (x2 : XMM) (k : Fin 2)
    (hdl : XMM.lo dst k ≤ 255) (hdh : XMM.hi dst k ≤ 255)
    (hml : x2.lo k ≤ 0xffff) (hmh : x2.hi k ≤ 0xffff) :
    XMM.lo (opOverStore4 dst x2 fxAlmost65536 inverseFFFF) k
        = overBlend (XMM.lo dst k) (x2.lo k)
    ∧ XMM.hi (opOverStore4 dst x2 fxAlmost65536 inverseFFFF) k
        = overBlend (XMM.hi dst k) (x2.hi k) := by
  obtain ⟨bl1, bl2⟩ := overBlend_bounds _ _ hdl hml
  obtain ⟨bh1, bh2⟩ := overBlend_bounds _ _ hdh hmh
  rw [overBlend_eq _ _ hdl hml, overBlend_eq _ _ hdh hmh]
  exact opOverStore4_tail (pmulld (psubl x2 fxAlmost65536) (scatterAndMulBy0x101 dst)) x2 k
    _ _ _ _ (pmulld_lane dst x2 _ hdl hml) (pmulld_lane dst x2 _ hdh hmh) rfl rfl
    bl1 bh1 bl2 bh2

theorem opOverStore4_eq_overBlend (dst : Fin 4 → Nat) (x2 : XMM)
    (hd : ∀ i, dst i ≤ 255) (hm : ∀ i, x2 i ≤ 0xffff) (i : Fin 4) :
    opOverStore4 dst x2 fxAlmost65536 inverseFFFF i = overBlend (dst i) (x2 i) := by
  have h0 := opOverStore4_quad dst x2 0 (hd _) (hd _) (hm _) (hm _)
  have h1 := opOverStore4_quad dst x2 1 (hd _) (hd _) (hm _) (hm _)
  fin_cases i
  · exact h0.1
  · exact h0.2
  · exact h1.1
  · exact h1.2

end vector

namespace vector

theorem bitLengthAux_le (fuel : Nat) : ∀ (m k : Nat), m < 2 ^ k → bitLengthAux fuel m ≤ k := by
  induction fuel with
  | zero => intro m k _; simp [bitLengthAux]
  | succ fuel ih =>
    intro m k h
    simp only [bitLengthAux]
    split
    · omega
    · rename_i hm
      cases k with
      | zero => simp at h; omega
      | succ k =>
        have : m / 2 < 2 ^ k := by rw [pow_succ] at h; omega
        have := ih (m / 2) k this
        omega

theorem bitLength_le (m k : Nat) (h : m < 2 ^ k) : bitLength m ≤ k :=
  bitLengthAux_le m m k h

/-- Truncating a product that was rounded toward zero is truncating the exact product,
when the rounding keeps all the integer bits. -/
theorem truncNat_roundTowardZero (s : Bool) (m : Nat) (e : Int) (he : e ≤ 0)
    (hn : e + bitLength m ≤ 24) :
    (F32.roundTowardZero s m e).truncNat = m / 2 ^ (-e).toNat := by
  have hov : ¬ (m ≠ 0 ∧ 128 < e + (bitLength m : Int)) := by omega
  simp only [F32.roundTowardZero, if_neg hov, F32.truncNat]
  generalize hE : max e (max (e + (bitLength m : Int) - 24) (-149)) = E
  have h1 : e ≤ E := by omega
  have h2 : E ≤ 0 := by omega
  split
  · have hE0 : E = 0 := by omega
    subst hE0
    simp
  · rw [Nat.div_div_eq_div_mul, ← pow_add]
    congr 2
    omega

/-- One lane of the floating-point 256-scale pipeline on the coverage `a / 2 ^ 20` with
either sign: the integer it produces is the truncated exact product. -/
theorem cvtps2pl_flClampAndScale256_lane (s : Bool) (a : Nat) (ha : a ≤ 2 ^ 20)
    (x1 : XMMf) (i : Fin 4) (hx1 : x1 i = ⟨s, a, -20⟩) :
    flConvertToInt32 (flClampAndScale256 x1 flAlmost256 flOne flSignMask) i
      = a * (2 ^ 24 - 1) / 2 ^ 36 := by
  have c1 : F32.ofBits 0x437fffff = ⟨false, 2 ^ 24 - 1, -16⟩ := by decide
  have c2 : F32.ofBits 0x3f800000 = ⟨false, 2 ^ 23, -23⟩ := by decide
  have c3 : Nat.testBit 0x7fffffff 31 = false := by decide
  simp only [flConvertToInt32, flClampAndScale256, cvtps2pl, mulps, minps, andps, flAlmost256,
    flOne, flSignMask, XMMf.splat, XMM.splat, hx1, c1, c2, c3, Bool.and_false]
  by_cases h : a < 2 ^ 20
  · have e1 : ((-20 : Int) - min (-20) (-23)).toNat = 3 := by decide
    have e2 : ((-23 : Int) - min (-20) (-23)).toNat = 0 := by decide
    have hlt : F32.lt ⟨false, a, -20⟩ ⟨false, 2 ^ 23, -23⟩ = true := by
      simp only [F32.lt, F32.scaled, decide_eq_true_eq, e1, e2, Bool.false_eq_true, if_false]
      omega
    simp only [hlt, if_true]
    have hb : bitLength (a * (2 ^ 24 - 1)) ≤ 44 := bitLength_le _ _ (by omega)
    have e3 : (-((-20 : Int) + -16)).toNat = 36 := by decide
    rw [truncNat_roundTowardZero _ _ _ (by decide) (by omega), e3]
    have hs : (F32.roundTowardZero (xor false false) (a * (2 ^ 24 - 1)) (-20 + -16)).sign
        = false := by
      simp only [F32.roundTowardZero]; split <;> rfl
    simp only [hs, Bool.false_eq_true, if_false, ofInt32]
    have hq : a * (2 ^ 24 - 1) / 2 ^ 36 ≤ 255 := by omega
    generalize a * (2 ^ 24 - 1) / 2 ^ 36 = q at hq
    have hc : ¬ ((q : Int) < -2 ^ 31 ∨ (2 : Int) ^ 31 ≤ q) := by omega
    rw [if_neg hc]
    omega
  · have hEq : a = 2 ^ 20 := by omega
    have hlt : F32.lt ⟨false, a, -20⟩ ⟨false, 2 ^ 23, -23⟩ = false := by
      rw [hEq]; decide
    simp only [hlt, Bool.false_eq_true, if_false]
    rw [hEq]
    decide

end vector

namespace vector

/-! ## The claims about the kernels -/

/-- C1: for every 32-bit unsigned `x`, the 64-bit product with `0x80008001` shifted
right by 47 is the quotient `x / 65535`; this is what the scalar store computes with
`MULL BX; SHRL $15, DX` and what the four-lane store computes in each quadword with
`pmuludq; PSRLQ $47`. -/
theorem divideByFFFF_exact (x : Nat) (hx : x < 2 ^ 32) :
    (x * 0x80008001) >>> 47 = x / 65535
    ∧ shrl 15 (mull x (movl 0x80008001)).1 = x / 0xffff
    ∧ ∀ (x0 : XMM) (k : Fin 2), x0.lo k = x →
        (psrlq 47 (pmuludq inverseFFFF x0)).quad k = x / 0xffff := by
  have hq : x * 2147516417 / 2 ^ 47 = x / 65535 := by omega
  refine ⟨?_, shrl_mull_inverseFFFF x hx, ?_⟩
  · rw [Nat.shiftRight_eq_div_pow]; exact hq
  · intro x0 k hk
    obtain ⟨l, h⟩ := pmuludq_psrlq_lanes x0 k x hk hx
    have hb : x / 0xffff < 2 ^ 32 := by omega
    rw [XMM.quad, l, h, Nat.mod_eq_of_lt hb]
    rfl

theorem divideByFFFF_exact_witness :
    (0xffffffff : Nat) < 2 ^ 32
    ∧ ((0xffffffff * 0x80008001) >>> 47 = 0xffffffff / 65535
    ∧ shrl 15 (mull 0xffffffff (movl 0x80008001)).1 = 0xffffffff / 0xffff
    ∧ ∀ (x0 : XMM) (k : Fin 2), x0.lo k = 0xffffffff →
        (psrlq 47 (pmuludq inverseFFFF x0)).quad k = 0xffffffff / 0xffff) :=
  ⟨by decide, divideByFFFF_exact 0xffffffff (by decide)⟩

/-- C4: for every content of a 32-bit accumulator lane, read as a signed int32 `x` (the
minimum value `-2 ^ 31` included), `fxClampAndScale256` leaves `min (|x| >> 12) 0xff` and
`fxClampAndScale65536` leaves `min (|x| >> 4) 0xffff`, with a logical shift and an unsigned
minimum; the results are at most 255 and 65535; and the two shift amounts are `2*ϕ - 8` and
`2*ϕ - 16` for `ϕ = 10`. -/
theorem fxClampAndScale_spec (x1 : XMM) (i : Fin 4) :
    fxClampAndScale256 x1 fxLoadXMMRegs256 i = min ((toInt32 (x1 i)).natAbs >>> 12) 0xff
    ∧ fxClampAndScale65536 x1 fxLoadXMMRegs65536 i
        = min ((toInt32 (x1 i)).natAbs >>> 4) 0xffff
    ∧ fxClampAndScale256 x1 fxLoadXMMRegs256 i ≤ 255
    ∧ fxClampAndScale65536 x1 fxLoadXMMRegs65536 i ≤ 65535
    ∧ fxClampAndScale256 (XMM.splat (ofInt32 (-2 ^ 31))) fxLoadXMMRegs256 i = 255
    ∧ fxClampAndScale65536 (XMM.splat (ofInt32 (-2 ^ 31))) fxLoadXMMRegs65536 i = 65535
    ∧ phi = 10
    ∧ fxClampAndScale256 x1 fxLoadXMMRegs256
        = pminud fxAlmost256 (psrld (2 * phi - 8) (pabsd x1))
    ∧ fxClampAndScale65536 x1 fxLoadXMMRegs65536
        = pminud fxAlmost65536 (psrld (2 * phi - 16) (pabsd x1)) := by
  refine ⟨fxClampAndScale256_lane x1 i, fxClampAndScale65536_lane x1 i, ?_, ?_, ?_, ?_,
    rfl, rfl, rfl⟩
  · rw [fxClampAndScale256_lane]; omega
  · rw [fxClampAndScale65536_lane]; omega
  · rw [fxClampAndScale256_lane]; simp only [XMM.splat]; decide
  · rw [fxClampAndScale65536_lane]; simp only [XMM.splat]; decide

/-- C5: with a fully transparent coverage, `maskA = 0`, the Over store writes back the
destination byte `d` it read, for every `d` in 0..255: the blend of the comment gives `d`,
the scalar store `opOverStore1` stores `d`, and the four-lane store `opOverStore4` stores
`dst[i]` in every lane whose coverage is 0. -/
theorem over_transparent_keeps_dst (d : Nat) (hd : d ≤ 255) :
    (((d * 0x101 * (0xffff - 0) / 0xffff + 0) >>> 8) % 256 = d ∧ overBlend d 0 = d)
    ∧ opOverStore1 d 0 = d
    ∧ ∀ (dst : Fin 4 → Nat) (x2 : XMM) (i : Fin 4),
        (∀ j, dst j ≤ 255) → (∀ j, x2 j ≤ 0xffff) → dst i = d → x2 i = 0 →
        opOverStore4 dst x2 fxAlmost65536 inverseFFFF i = d := by
  have hb : overBlend d 0 = d := by
    rw [overBlend_eq d 0 hd (by omega)]; omega
  refine ⟨⟨hb, hb⟩, ?_, ?_⟩
  · rw [(opOverStore1_eq d 0 hd (by omega)).2.2]; omega
  · intro dst x2 i h1 h2 h3 h4
    rw [opOverStore4_eq_overBlend dst x2 h1 h2 i, h3, h4, hb]

theorem over_transparent_keeps_dst_witness :
    (200 : Nat) ≤ 255
    ∧ ((((200 * 0x101 * (0xffff - 0) / 0xffff + 0) >>> 8) % 256 = 200 ∧ overBlend 200 0 = 200)
    ∧ opOverStore1 200 0 = 200
    ∧ ∀ (dst : Fin 4 → Nat) (x2 : XMM) (i : Fin 4),
        (∀ j, dst j ≤ 255) → (∀ j, x2 j ≤ 0xffff) → dst i = 200 → x2 i = 0 →
        opOverStore4 dst x2 fxAlmost65536 inverseFFFF i = 200) :=
  ⟨by decide, over_transparent_keeps_dst 200 (by decide)⟩

/-- C9: for every integer accumulator value `x` with `|x| ≤ 2 ^ 20`, the alpha of the
fixed-point 256-scale pipeline is `min (|x| >> 12) 255`, the alpha of the floating-point
256-scale pipeline on the coverage `c = x / 2 ^ 20` is the truncation of
`min |c| 1 * 255.99998`, with `255.99998 = 16777215 / 65536` the float32 `0x437fffff`, and
the two differ by at most 1. -/
theorem fx_fl_alpha_within_one (x : Int) (hx : x.natAbs ≤ 2 ^ 20)
    (x1 : XMM) (y1 : XMMf) (i : Fin 4)
    (hx1 : x1 i = ofInt32 x) (hy1 : y1 i = F32.ofCoverage x) :
    fxClampAndScale256 x1 fxLoadXMMRegs256 i = min (x.natAbs >>> 12) 255
    ∧ flConvertToInt32 (flClampAndScale256 y1 flAlmost256 flOne flSignMask) i
        = ⌊min (|(x : ℚ)| / 2 ^ 20) 1 * (16777215 / 65536)⌋₊
    ∧ (fxClampAndScale256 x1 fxLoadXMMRegs256 i : Int)
        - flConvertToInt32 (flClampAndScale256 y1 flAlmost256 flOne flSignMask) i ≤ 1
    ∧ (flConvertToInt32 (flClampAndScale256 y1 flAlmost256 flOne flSignMask) i : Int)
        - fxClampAndScale256 x1 fxLoadXMMRegs256 i ≤ 1 := by
  have hfx : fxClampAndScale256 x1 fxLoadXMMRegs256 i = min (x.natAbs >>> 12) 255 := by
    rw [fxClampAndScale256_lane, hx1, toInt32_ofInt32 x (by omega) (by omega)]
  have hfl := cvtps2pl_flClampAndScale256_lane (decide (x < 0)) x.natAbs hx y1 i hy1
  have hfloor : ⌊min (|(x : ℚ)| / 2 ^ 20) 1 * (16777215 / 65536)⌋₊
      = x.natAbs * (2 ^ 24 - 1) / 2 ^ 36 := by
    have habs : |(x : ℚ)| = (x.natAbs : ℚ) := by
      rw [Nat.cast_natAbs, Int.cast_abs]
    have hle : (x.natAbs : ℚ) / 2 ^ 20 ≤ 1 := by
      rw [div_le_one (by positivity)]
      exact_mod_cast hx
    rw [habs, min_eq_left hle]
    have e : (x.natAbs : ℚ) / 2 ^ 20 * (16777215 / 65536)
        = ((x.natAbs * (2 ^ 24 - 1) : ℕ) : ℚ) / ((2 ^ 36 : ℕ) : ℚ) := by
      push_cast
      norm_num
      ring
    rw [e, Nat.floor_div_eq_div]
  rw [hfx, hfl, hfloor]
  simp only [Nat.shiftRight_eq_div_pow]
  refine ⟨trivial, trivial, ?_, ?_⟩ <;> omega

theorem fx_fl_alpha_within_one_witness :
    ((4096 : Int).natAbs ≤ 2 ^ 20)
    ∧ (fxClampAndScale256 (XMM.splat (ofInt32 4096)) fxLoadXMMRegs256 0
        = min ((4096 : Int).natAbs >>> 12) 255
    ∧ flConvertToInt32 (flClampAndScale256 (fun _ => F32.ofCoverage 4096) flAlmost256 flOne
          flSignMask) 0
        = ⌊min (|((4096 : Int) : ℚ)| / 2 ^ 20) 1 * (16777215 / 65536)⌋₊
    ∧ (fxClampAndScale256 (XMM.splat (ofInt32 4096)) fxLoadXMMRegs256 0 : Int)
        - flConvertToInt32 (flClampAndScale256 (fun _ => F32.ofCoverage 4096) flAlmost256
            flOne flSignMask) 0 ≤ 1
    ∧ (flConvertToInt32 (flClampAndScale256 (fun _ => F32.ofCoverage 4096) flAlmost256 flOne
          flSignMask) 0 : Int)
        - fxClampAndScale256 (XMM.splat (ofInt32 4096)) fxLoadXMMRegs256 0 ≤ 1) :=
  ⟨by decide,
    fx_fl_alpha_within_one 4096 (by decide) (XMM.splat (ofInt32 4096))
      (fun _ => F32.ofCoverage 4096) 0 rfl rfl⟩

/-- C10: for every destination byte `d` in 0..255 and every coverage `maskA` in 0..0xffff,
the instruction sequence of `opOverStore1` stores the byte that its comment states,
`uint8((d*0x101*(0xffff - maskA)/0xffff + maskA) >> 8)`: the first `MULL` leaves zero in
`DX`, so the product fits in the 32 bits of `AX`; the sum before the last shift is at most
`0xffff`, so the stored byte is the whole of the shifted sum; and every lane of
`opOverStore4` stores the same byte. -/
theorem opOverStore1_eq_overBlend (d maskA : Nat) (hd : d ≤ 255) (hm : maskA ≤ 0xffff) :
    opOverStore1 d maskA = overBlend d maskA
    ∧ (mull (subl (movl maskA) (movl 0xffff)) (imull 0x101 (movblzx d))).1 = 0
    ∧ (mull (subl (movl maskA) (movl 0xffff)) (imull 0x101 (movblzx d))).2
        = d * 0x101 * (0xffff - maskA)
    ∧ d * 0x101 * (0xffff - maskA) < 2 ^ 32
    ∧ d * 0x101 * (0xffff - maskA) / 0xffff + maskA ≤ 0xffff
    ∧ opOverStore1 d maskA = (d * 0x101 * (0xffff - maskA) / 0xffff + maskA) >>> 8
    ∧ ∀ (dst : Fin 4 → Nat) (x2 : XMM) (i : Fin 4),
        (∀ j, dst j ≤ 255) → (∀ j, x2 j ≤ 0xffff) → dst i = d → x2 i = maskA →
        opOverStore4 dst x2 fxAlmost65536 inverseFFFF i = opOverStore1 d maskA := by
  obtain ⟨b1, b2⟩ := overBlend_bounds d maskA hd hm
  obtain ⟨s1, s2, s3⟩ := opOverStore1_eq d maskA hd hm
  have hb := overBlend_eq d maskA hd hm
  refine ⟨by rw [s3, hb], s1, s2, b1, b2, by rw [s3, Nat.shiftRight_eq_div_pow], ?_⟩
  intro dst x2 i h1 h2 h3 h4
  rw [opOverStore4_eq_overBlend dst x2 h1 h2 i, h3, h4, s3, hb]

theorem opOverStore1_eq_overBlend_witness :
    ((200 : Nat) ≤ 255 ∧ (0x8000 : Nat) ≤ 0xffff)
    ∧ (opOverStore1 200 0x8000 = overBlend 200 0x8000
    ∧ (mull (subl (movl 0x8000) (movl 0xffff)) (imull 0x101 (movblzx 200))).1 = 0
    ∧ (mull (subl (movl 0x8000) (movl 0xffff)) (imull 0x101 (movblzx 200))).2
        = 200 * 0x101 * (0xffff - 0x8000)
    ∧ 200 * 0x101 * (0xffff - 0x8000) < 2 ^ 32
    ∧ 200 * 0x101 * (0xffff - 0x8000) / 0xffff + 0x8000 ≤ 0xffff
    ∧ opOverStore1 200 0x8000 = (200 * 0x101 * (0xffff - 0x8000) / 0xffff + 0x8000) >>> 8
    ∧ ∀ (dst : Fin 4 → Nat) (x2 : XMM) (i : Fin 4),
        (∀ j, dst j ≤ 255) → (∀ j, x2 j ≤ 0xffff) → dst i = 200 → x2 i = 0x8000 →
        opOverStore4 dst x2 fxAlmost65536 inverseFFFF i = opOverStore1 200 0x8000) :=
  ⟨⟨by decide, by decide⟩, opOverStore1_eq_overBlend 200 0x8000 (by decide) (by decide)⟩

end vector

namespace opentype

/-! ## Integer ranges in `Glyph` -/

theorem int_eq_self (x : Int) (h1 : -2 ^ 63 ≤ x) (h2 : x < 2 ^ 63) : int x = x := by
  unfold int; omega

theorem Int26_6.Floor_bounds (x : Int26_6) : -33554432 ≤ x.Floor ∧ x.Floor ≤ 33554431 := by
  have h1 := x.lo
  have h2 := x.hi
  unfold Int26_6.Floor
  omega

theorem Int26_6.Ceil_bounds (x : Int26_6) : -33554432 ≤ x.Ceil ∧ x.Ceil ≤ 33554432 := by
  have h1 := x.lo
  have h2 := x.hi
  unfold Int26_6.Ceil
  omega

/-- `Floor` is the floor of the 26.6 value read as a rational number of pixels. -/
theorem Int26_6.Floor_eq_floor (x : Int26_6) : x.Floor = ⌊(x.val : ℚ) / 64⌋ := by
  unfold Int26_6.Floor
  rw [eq_comm, Int.floor_eq_iff]
  have h64 : (0 : ℚ) < 64 := by norm_num
  constructor
  · rw [le_div_iff₀ h64]
    have : x.val / 64 * 64 ≤ x.val := by omega
    exact_mod_cast this
  · rw [div_lt_iff₀ h64]
    have : x.val < (x.val / 64 + 1) * 64 := by omega
    exact_mod_cast this

/-- `Ceil` is the ceiling of the 26.6 value read as a rational number of pixels. -/
theorem Int26_6.Ceil_eq_ceil (x : Int26_6) : x.Ceil = ⌈(x.val : ℚ) / 64⌉ := by
  unfold Int26_6.Ceil
  rw [eq_comm, Int.ceil_eq_iff]
  have h64 : (0 : ℚ) < 64 := by norm_num
  constructor
  · rw [lt_div_iff₀ h64]
    have : (-(-x.val / 64) - 1) * 64 < x.val := by omega
    exact_mod_cast this
  · rw [div_le_iff₀ h64]
    have : x.val ≤ (-(-x.val / 64)) * 64 := by omega
    exact_mod_cast this

theorem mul_bounds (w h B : Int) (hw1 : -B ≤ w) (hw2 : w ≤ B) (hh1 : -B ≤ h) (hh2 : h ≤ B) :
    -(B * B) ≤ w * h ∧ w * h ≤ B * B := by
  constructor
  · nlinarith [mul_nonneg (sub_nonneg.2 hw2) (sub_nonneg.2 hh2),
      mul_nonneg (sub_nonneg.2 (neg_le.1 hw1)) (sub_nonneg.2 (neg_le.1 hh1))]
  · nlinarith [mul_nonneg (sub_nonneg.2 hw2) (sub_nonneg.2 (neg_le.1 hh1)),
      mul_nonneg (sub_nonneg.2 (neg_le.1 hw1)) (sub_nonneg.2 hh2)]

end opentype

namespace opentype

/-! ## The rasterizing part of `Glyph` -/

/-- When the pixel area `width * height` is not negative, the rasterizing part of `Glyph`
returns, and every field of what it returns and of the `Face` it leaves is as follows. -/
theorem Face.rasterize_spec {ρ : Type} (R : Rasterizer ρ) (f : Face ρ) (dot : Point26_6)
    (segments : List Segment) (bounds : Rectangle26_6) (advance : Int26_6)
    (hnn : 0 ≤ (bounds.Max.X.Ceil - bounds.Min.X.Floor)
      * (bounds.Max.Y.Ceil - bounds.Min.Y.Floor)) :
    ∃ (rast : ρ) (byte : Nat → Nat),
      Face.rasterize R f dot segments bounds advance =
        some (⟨⟨⟨dot.X.Floor + bounds.Min.X.Floor, dot.Y.Floor + bounds.Min.Y.Floor⟩,
              ⟨dot.X.Floor + bounds.Min.X.Floor + (bounds.Max.X.Ceil - bounds.Min.X.Floor),
                dot.Y.Floor + bounds.Min.Y.Floor
                  + (bounds.Max.Y.Ceil - bounds.Min.Y.Floor)⟩⟩,
            some ⟨⟨((bounds.Max.X.Ceil - bounds.Min.X.Floor)
                  * (bounds.Max.Y.Ceil - bounds.Min.Y.Floor)).toNat,
                if (f.mask.Pix.cap : Int) < (bounds.Max.X.Ceil - bounds.Min.X.Floor)
                    * (bounds.Max.Y.Ceil - bounds.Min.Y.Floor)
                then (2 * ((bounds.Max.X.Ceil - bounds.Min.X.Floor)
                    * (bounds.Max.Y.Ceil - bounds.Min.Y.Floor))).toNat
                else f.mask.Pix.cap, byte⟩,
              bounds.Max.X.Ceil - bounds.Min.X.Floor,
              ⟨⟨0, 0⟩, ⟨bounds.Max.X.Ceil - bounds.Min.X.Floor,
                bounds.Max.Y.Ceil - bounds.Min.Y.Floor⟩⟩⟩,
            ⟨0, 0⟩, advance, true⟩,
          { f with
            rast := rast
            mask := ⟨⟨((bounds.Max.X.Ceil - bounds.Min.X.Floor)
                  * (bounds.Max.Y.Ceil - bounds.Min.Y.Floor)).toNat,
                if (f.mask.Pix.cap : Int) < (bounds.Max.X.Ceil - bounds.Min.X.Floor)
                    * (bounds.Max.Y.Ceil - bounds.Min.Y.Floor)
                then (2 * ((bounds.Max.X.Ceil - bounds.Min.X.Floor)
                    * (bounds.Max.Y.Ceil - bounds.Min.Y.Floor))).toNat
                else f.mask.Pix.cap, byte⟩,
              bounds.Max.X.Ceil - bounds.Min.X.Floor,
              ⟨⟨0, 0⟩, ⟨bounds.Max.X.Ceil - bounds.Min.X.Floor,
                bounds.Max.Y.Ceil - bounds.Min.Y.Floor⟩⟩⟩ }) := by
  simp only [Face.rasterize, Alpha.Bounds]
  obtain ⟨a1, a2⟩ := bounds.Min.X.Floor_bounds
  obtain ⟨b1, b2⟩ := bounds.Min.Y.Floor_bounds
  obtain ⟨c1, c2⟩ := bounds.Max.X.Ceil_bounds
  obtain ⟨d1, d2⟩ := bounds.Max.Y.Ceil_bounds
  obtain ⟨e1, e2⟩ := dot.X.Floor_bounds
  obtain ⟨g1, g2⟩ := dot.Y.Floor_bounds
  generalize bounds.Min.X.Floor = xmin at *
  generalize bounds.Min.Y.Floor = ymin at *
  generalize bounds.Max.X.Ceil = xmax at *
  generalize bounds.Max.Y.Ceil = ymax at *
  generalize dot.X.Floor = ix at *
  generalize dot.Y.Floor = iy at *
  obtain ⟨m1, m2⟩ := mul_bounds (xmax - xmin) (ymax - ymin) 67108864
    (by omega) (by omega) (by omega) (by omega)
  have hw : int (xmax - xmin) = xmax - xmin := int_eq_self _ (by omega) (by omega)
  have hh : int (ymax - ymin) = ymax - ymin := int_eq_self _ (by omega) (by omega)
  have hn : int ((xmax - xmin) * (ymax - ymin)) = (xmax - xmin) * (ymax - ymin) :=
    int_eq_self _ (by omega) (by omega)
  have h2n : int (2 * ((xmax - xmin) * (ymax - ymin))) = 2 * ((xmax - xmin) * (ymax - ymin)) :=
    int_eq_self _ (by omega) (by omega)
  have hx : int (ix + xmin) = ix + xmin := int_eq_self _ (by omega) (by omega)
  have hy : int (iy + ymin) = iy + ymin := int_eq_self _ (by omega) (by omega)
  have hx2 : int (ix + xmin + (xmax - xmin)) = ix + xmin + (xmax - xmin) :=
    int_eq_self _ (by omega) (by omega)
  have hy2 : int (iy + ymin + (ymax - ymin)) = iy + ymin + (ymax - ymin) :=
    int_eq_self _ (by omega) (by omega)
  simp only [hw, hh, hn, h2n, hx, hy, hx2, hy2]
  generalize (xmax - xmin) * (ymax - ymin) = npix at *
  by_cases hc : (f.mask.Pix.cap : Int) < npix
  · have k1 : ¬ (2 * npix < 0) := by omega
    have k2 : ¬ (npix < 0 ∨ ((2 * npix).toNat : Int) < npix) := by omega
    simp only [hc, if_true, Slice.make, if_neg k1, Option.bind_eq_bind, Option.some_bind,
      Slice.reslice, if_neg k2]
    exact ⟨_, _, rfl⟩
  · have k2 : ¬ (npix < 0) := by omega
    simp only [hc, if_false, Option.bind_eq_bind, Option.some_bind, Slice.reslice, or_false,
      if_neg k2]
    exact ⟨_, _, rfl⟩

/-- When the pixel area `width * height` is negative, the reslice `f.mask.Pix[:npix]`
panics. -/
theorem Face.rasterize_panic {ρ : Type} (R : Rasterizer ρ) (f : Face ρ) (dot : Point26_6)
    (segments : List Segment) (bounds : Rectangle26_6) (advance : Int26_6)
    (hneg : (bounds.Max.X.Ceil - bounds.Min.X.Floor)
      * (bounds.Max.Y.Ceil - bounds.Min.Y.Floor) < 0) :
    Face.rasterize R f dot segments bounds advance = none := by
  simp only [Face.rasterize, Alpha.Bounds]
  obtain ⟨a1, a2⟩ := bounds.Min.X.Floor_bounds
  obtain ⟨b1, b2⟩ := bounds.Min.Y.Floor_bounds
  obtain ⟨c1, c2⟩ := bounds.Max.X.Ceil_bounds
  obtain ⟨d1, d2⟩ := bounds.Max.Y.Ceil_bounds
  generalize bounds.Min.X.Floor = xmin at *
  generalize bounds.Min.Y.Floor = ymin at *
  generalize bounds.Max.X.Ceil = xmax at *
  generalize bounds.Max.Y.Ceil = ymax at *
  obtain ⟨m1, m2⟩ := mul_bounds (xmax - xmin) (ymax - ymin) 67108864
    (by omega) (by omega) (by omega) (by omega)
  have hw : int (xmax - xmin) = xmax - xmin := int_eq_self _ (by omega) (by omega)
  have hh : int (ymax - ymin) = ymax - ymin := int_eq_self _ (by omega) (by omega)
  have hn : int ((xmax - xmin) * (ymax - ymin)) = (xmax - xmin) * (ymax - ymin) :=
    int_eq_self _ (by omega) (by omega)
  simp only [hw, hh, hn]
  generalize (xmax - xmin) * (ymax - ymin) = npix at *
  have hc : ¬ ((f.mask.Pix.cap : Int) < npix) := by omega
  simp only [hc, if_false, Option.bind_eq_bind, Option.some_bind, Slice.reslice, or_false,
    if_pos hneg]

end opentype

namespace opentype

/-! ## `Glyph` -/

/-- A failed glyph-index lookup or a failed outline load ends `Glyph` with the zeroed
result, `ok = false` and no mask. -/
theorem Face.Glyph_of_lookup_or_load_failure {ρ : Type} (font : Font) (R : Rasterizer ρ)
    (f : Face ρ) (dot : Point26_6) (r : rune)
    (h : (font.GlyphIndex r).2 ≠ none
      ∨ (font.LoadGlyph (font.GlyphIndex r).1 f.scale).2 ≠ none) :
    ∃ f', Face.Glyph font R f dot r
        = some (⟨Rectangle.zero, none, Point.zero, Int26_6.zero, false⟩, f')
      ∧ f'.mask = f.mask ∧ f'.rast = f.rast := by
  by_cases h1 : (font.GlyphIndex r).2 ≠ none
  · exact ⟨{ f with buf := f.buf ++ [Call.GlyphIndex r] },
      by simp only [Face.Glyph, if_pos h1], rfl, rfl⟩
  · have h2 : (font.LoadGlyph (font.GlyphIndex r).1 f.scale).2 ≠ none := by
      rcases h with h | h
      · exact absurd h h1
      · exact h
    exact ⟨{ f with buf := f.buf ++ [Call.GlyphIndex r]
        ++ [Call.LoadGlyph (font.GlyphIndex r).1 f.scale] },
      by simp only [Face.Glyph, if_neg h1, if_pos h2], rfl, rfl⟩

/-- After a successful glyph-index lookup and a successful outline load, `Glyph` is its
rasterizing part on what `GlyphBounds` returned, whether or not `GlyphBounds` failed. -/
theorem Face.Glyph_of_loaded {ρ : Type} (font : Font) (R : Rasterizer ρ)
    (f : Face ρ) (dot : Point26_6) (r : rune)
    (h1 : (font.GlyphIndex r).2 = none)
    (h2 : (font.LoadGlyph (font.GlyphIndex r).1 f.scale).2 = none) :
    Face.Glyph font R f dot r =
      Face.rasterize R
        { f with buf := f.buf ++ [Call.GlyphIndex r]
            ++ [Call.LoadGlyph (font.GlyphIndex r).1 f.scale] ++ [Call.GlyphIndex r]
            ++ [Call.GlyphBounds (font.GlyphIndex r).1 f.scale f.hinting] }
        dot (font.LoadGlyph (font.GlyphIndex r).1 f.scale).1
        (font.GlyphBounds (font.GlyphIndex r).1 f.scale f.hinting).1
        (font.GlyphBounds (font.GlyphIndex r).1 f.scale f.hinting).2.1 := by
  simp only [Face.Glyph, h1, h2, ne_eq, not_true_eq_false, if_false, Face.GlyphBounds,
    Face.index]

/-- The capacity of the mask buffer after one `Glyph` call that returns. -/
theorem Face.Glyph_cap {ρ : Type} (font : Font) (R : Rasterizer ρ)
    (f : Face ρ) (dot : Point26_6) (r : rune) (out : GlyphResult × Face ρ)
    (h : Face.Glyph font R f dot r = some out) :
    (out.1.ok = false ∧ out.2.mask = f.mask)
    ∨ (out.1.ok = true
      ∧ 0 ≤ out.2.mask.Rect.Max.X * out.2.mask.Rect.Max.Y
      ∧ (out.2.mask.Pix.len : Int) = out.2.mask.Rect.Max.X * out.2.mask.Rect.Max.Y
      ∧ out.2.mask.Pix.cap
          = if (f.mask.Pix.cap : Int) < out.2.mask.Rect.Max.X * out.2.mask.Rect.Max.Y
            then (2 * (out.2.mask.Rect.Max.X * out.2.mask.Rect.Max.Y)).toNat
            else f.mask.Pix.cap) := by
  by_cases hf : (font.GlyphIndex r).2 ≠ none
      ∨ (font.LoadGlyph (font.GlyphIndex r).1 f.scale).2 ≠ none
  · obtain ⟨f', e, hm, -⟩ := Face.Glyph_of_lookup_or_load_failure font R f dot r hf
    rw [e] at h
    cases h
    exact Or.inl ⟨rfl, hm⟩
  · have h1 : (font.GlyphIndex r).2 = none := by
      by_contra c; exact hf (Or.inl c)
    have h2 : (font.LoadGlyph (font.GlyphIndex r).1 f.scale).2 = none := by
      by_contra c; exact hf (Or.inr c)
    rw [Face.Glyph_of_loaded font R f dot r h1 h2] at h
    generalize (font.GlyphBounds (font.GlyphIndex r).1 f.scale f.hinting).1 = b at h
    by_cases hn : 0 ≤ (b.Max.X.Ceil - b.Min.X.Floor) * (b.Max.Y.Ceil - b.Min.Y.Floor)
    · obtain ⟨rast, byte, e⟩ := Face.rasterize_spec R _ dot
        (font.LoadGlyph (font.GlyphIndex r).1 f.scale).1 b
        (font.GlyphBounds (font.GlyphIndex r).1 f.scale f.hinting).2.1 hn
      rw [e] at h
      cases h
      refine Or.inr ⟨rfl, hn, ?_, rfl⟩
      exact Int.toNat_of_nonneg hn
    · rw [Face.rasterize_panic R _ dot _ b _ (by omega)] at h
      cases h

theorem Face.Glyph_cap_mono {ρ : Type} (font : Font) (R : Rasterizer ρ)
    (f : Face ρ) (dot : Point26_6) (r : rune) (out : GlyphResult × Face ρ)
    (h : Face.Glyph font R f dot r = some out) :
    f.mask.Pix.cap ≤ out.2.mask.Pix.cap := by
  rcases Face.Glyph_cap font R f dot r out h with ⟨-, e⟩ | ⟨-, -, -, e⟩
  · rw [e]
  · rw [e]; split <;> omega

theorem Face.GlyphSeq_cap_mono {ρ : Type} (font : Font) (R : Rasterizer ρ)
    (calls : List (Point26_6 × rune)) :
    ∀ (f f1 : Face ρ), Face.GlyphSeq font R f calls = some f1 →
      f.mask.Pix.cap ≤ f1.mask.Pix.cap := by
  induction calls with
  | nil =>
    intro f f1 h
    simp only [Face.GlyphSeq, Option.some.injEq] at h
    rw [h]
  | cons c cs ih =>
    intro f f1 h
    simp only [Face.GlyphSeq] at h
    cases hg : Face.Glyph font R f c.1 c.2 with
    | none => rw [hg] at h; cases h
    | some out =>
      rw [hg] at h
      exact le_trans (Face.Glyph_cap_mono font R f c.1 c.2 out hg) (ih out.2 f1 h)

/-! ## `Metrics` -/

theorem Face.Metrics_of_set {ρ : Type} (font : Font) (f : Face ρ)
    (h : f.metricsSet = true) : Face.Metrics font f = (f.metrics, f) := by
  simp only [Face.Metrics, h, not_true_eq_false, if_false]

theorem Face.MetricsSeq_of_set {ρ : Type} (fonts : List Font) :
    ∀ (f : Face ρ), f.metricsSet = true →
      Face.MetricsSeq f fonts = (List.replicate fonts.length f.metrics, f) := by
  induction fonts with
  | nil => intro f _; rfl
  | cons font fonts ih =>
    intro f h
    simp only [Face.MetricsSeq, Face.Metrics_of_set font f h, ih f h, List.length_cons,
      List.replicate_succ]

end opentype

namespace opentype

/-! ## The claims about `Face` -/

/-- C2: evaluation of `Glyph` where the decoder fails in `GlyphBounds` only. The
glyph-index lookup and the outline load succeed, `GlyphBounds` reports an error, and
`Face.GlyphBounds` returns `ok = false`; `Glyph` all the same returns `ok = true` with the
mask `&f.mask`, an empty rectangle at the pen position, instead of the zeroed result with
`ok = false` and a nil mask. -/
theorem Glyph_ok_when_GlyphBounds_fails :
    (Example.boundsFailFont.GlyphIndex 65).2 = none
    ∧ (Example.boundsFailFont.LoadGlyph 1 Example.face.scale).2 = none
    ∧ (Example.boundsFailFont.GlyphBounds 1 Example.face.scale Example.face.hinting).2.2
        ≠ none
    ∧ (Face.GlyphBounds Example.boundsFailFont Example.face 65).1.2.2 = false
    ∧ (Face.Glyph Example.boundsFailFont Example.rast Example.face Example.dot 65).map
        (fun out => (out.1.ok, out.1.mask.isSome, out.1.dr))
        = some (true, true, ⟨⟨10, 20⟩, ⟨10, 20⟩⟩) := by
  decide

/-- C3, counterexample: the decoder succeeds at every stage with the zero-area box
`(0.5, 0.5)-(0.5, 0.5)`, and the mask that `Glyph` returns is not empty: it is one pixel,
`1 x 1`. -/
theorem Glyph_zero_area_box_one_pixel :
    (Example.pointFont.GlyphIndex 65).2 = none
    ∧ (Example.pointFont.LoadGlyph 1 Example.face.scale).2 = none
    ∧ (Example.pointFont.GlyphBounds 1 Example.face.scale Example.face.hinting).2.2 = none
    ∧ (Example.pointFont.GlyphBounds 1 Example.face.scale Example.face.hinting).1.Min
        = (Example.pointFont.GlyphBounds 1 Example.face.scale Example.face.hinting).1.Max
    ∧ (Face.Glyph Example.pointFont Example.rast Example.face Example.dot 65).map
        (fun out => (out.1.ok, out.2.mask.Pix.len, out.2.mask.Rect))
        = some (true, 1, ⟨⟨0, 0⟩, ⟨1, 1⟩⟩) := by
  decide

/-- C3, amended: when the decoder succeeds at every stage with a box whose `Min` is
componentwise at most its `Max`, `Glyph` returns `ok = true` with the pixel bounds
`xmin = ⌊Min.X / 64⌋`, `ymin = ⌊Min.Y / 64⌋`, `xmax = ⌈Max.X / 64⌉`, `ymax = ⌈Max.Y / 64⌉`,
non-negative `width = xmax - xmin` and `height = ymax - ymin`, the destination rectangle
from `(⌊dot.X / 64⌋ + xmin, ⌊dot.Y / 64⌋ + ymin)` with that size, the mask `&f.mask` with
rectangle `(0,0)-(width,height)`, stride `width` and `width * height` pixel bytes, the
mask origin `(0,0)` and the advance of the decoder. The mask is empty exactly when `width`
or `height` is zero, as for a zero-area box whose degenerate coordinate is a whole number of
pixels (the all-zero box of a blank glyph among them). -/
theorem Glyph_success {ρ : Type} (font : Font) (R : Rasterizer ρ) (f : Face ρ)
    (dot : Point26_6) (r : rune) (b : Rectangle26_6) (adv : Int26_6)
    (h1 : (font.GlyphIndex r).2 = none)
    (h2 : (font.LoadGlyph (font.GlyphIndex r).1 f.scale).2 = none)
    (h3 : font.GlyphBounds (font.GlyphIndex r).1 f.scale f.hinting = (b, adv, none))
    (hx : b.Min.X.val ≤ b.Max.X.val) (hy : b.Min.Y.val ≤ b.Max.Y.val) :
    ∃ (res : GlyphResult) (f' : Face ρ) (xmin ymin xmax ymax width height : Int),
      Face.Glyph font R f dot r = some (res, f') ∧ res.ok = true
      ∧ xmin = ⌊(b.Min.X.val : ℚ) / 64⌋ ∧ ymin = ⌊(b.Min.Y.val : ℚ) / 64⌋
      ∧ xmax = ⌈(b.Max.X.val : ℚ) / 64⌉ ∧ ymax = ⌈(b.Max.Y.val : ℚ) / 64⌉
      ∧ width = xmax - xmin ∧ height = ymax - ymin ∧ 0 ≤ width ∧ 0 ≤ height
      ∧ res.dr.Min = ⟨⌊(dot.X.val : ℚ) / 64⌋ + xmin, ⌊(dot.Y.val : ℚ) / 64⌋ + ymin⟩
      ∧ res.dr.Max = ⟨res.dr.Min.X + width, res.dr.Min.Y + height⟩
      ∧ res.mask = some f'.mask
      ∧ f'.mask.Rect = ⟨⟨0, 0⟩, ⟨width, height⟩⟩
      ∧ f'.mask.Stride = width
      ∧ (f'.mask.Pix.len : Int) = width * height
      ∧ res.maskp = ⟨0, 0⟩
      ∧ res.advance = adv
      ∧ (f'.mask.Pix.len = 0 ↔ width = 0 ∨ height = 0)
      ∧ ((b.Min.X = b.Max.X ∧ b.Min.X.val % 64 = 0)
          ∨ (b.Min.Y = b.Max.Y ∧ b.Min.Y.val % 64 = 0) → f'.mask.Pix.len = 0) := by
  have hw : 0 ≤ b.Max.X.Ceil - b.Min.X.Floor := by
    simp only [Int26_6.Ceil, Int26_6.Floor]; omega
  have hh : 0 ≤ b.Max.Y.Ceil - b.Min.Y.Floor := by
    simp only [Int26_6.Ceil, Int26_6.Floor]; omega
  have hnn := mul_nonneg hw hh
  obtain ⟨rast, byte, e⟩ := Face.rasterize_spec R
    { f with buf := f.buf ++ [Call.GlyphIndex r]
        ++ [Call.LoadGlyph (font.GlyphIndex r).1 f.scale] ++ [Call.GlyphIndex r]
        ++ [Call.GlyphBounds (font.GlyphIndex r).1 f.scale f.hinting] }
    dot (font.LoadGlyph (font.GlyphIndex r).1 f.scale).1 b adv hnn
  have hg := Face.Glyph_of_loaded font R f dot r h1 h2
  rw [h3] at hg
  rw [e] at hg
  have hlen : ∀ w h : Int, 0 ≤ w * h → ((w * h).toNat = 0 ↔ w = 0 ∨ h = 0) := by
    intro w h hp
    rw [← mul_eq_zero]
    omega
  refine ⟨_, _, b.Min.X.Floor, b.Min.Y.Floor, b.Max.X.Ceil, b.Max.Y.Ceil,
    b.Max.X.Ceil - b.Min.X.Floor, b.Max.Y.Ceil - b.Min.Y.Floor, hg, rfl,
    b.Min.X.Floor_eq_floor, b.Min.Y.Floor_eq_floor, b.Max.X.Ceil_eq_ceil,
    b.Max.Y.Ceil_eq_ceil, rfl, rfl, hw, hh, ?_, rfl, rfl, rfl, rfl, ?_, rfl, rfl,
    hlen _ _ hnn, ?_⟩
  · show (⟨dot.X.Floor + b.Min.X.Floor, dot.Y.Floor + b.Min.Y.Floor⟩ : Point) = _
    rw [dot.X.Floor_eq_floor, dot.Y.Floor_eq_floor]
  · exact Int.toNat_of_nonneg hnn
  · intro hz
    apply (hlen _ _ hnn).2
    rcases hz with ⟨hz1, hz2⟩ | ⟨hz1, hz2⟩
    · left
      rw [← hz1]
      simp only [Int26_6.Ceil, Int26_6.Floor]; omega
    · right
      rw [← hz1]
      simp only [Int26_6.Ceil, Int26_6.Floor]; omega

theorem Glyph_success_witness :
    ((Example.font.GlyphIndex 65).2 = none
    ∧ (Example.font.LoadGlyph (Example.font.GlyphIndex 65).1 Example.face.scale).2 = none)
    ∧ ∃ (res : GlyphResult) (f' : Face Unit) (xmin ymin xmax ymax width height : Int),
      Face.Glyph Example.font Example.rast Example.face Example.dot 65 = some (res, f')
      ∧ res.ok = true
      ∧ xmin = ⌊((Example.fix 96 (by decide)).val : ℚ) / 64⌋
      ∧ ymin = ⌊((Example.fix 16 (by decide)).val : ℚ) / 64⌋
      ∧ xmax = ⌈((Example.fix 448 (by decide)).val : ℚ) / 64⌉
      ∧ ymax = ⌈((Example.fix 608 (by decide)).val : ℚ) / 64⌉
      ∧ width = xmax - xmin ∧ height = ymax - ymin ∧ 0 ≤ width ∧ 0 ≤ height
      ∧ res.dr.Min = ⟨⌊(Example.dot.X.val : ℚ) / 64⌋ + xmin,
          ⌊(Example.dot.Y.val : ℚ) / 64⌋ + ymin⟩
      ∧ res.dr.Max = ⟨res.dr.Min.X + width, res.dr.Min.Y + height⟩
      ∧ res.mask = some f'.mask
      ∧ f'.mask.Rect = ⟨⟨0, 0⟩, ⟨width, height⟩⟩
      ∧ f'.mask.Stride = width
      ∧ (f'.mask.Pix.len : Int) = width * height
      ∧ res.maskp = ⟨0, 0⟩
      ∧ res.advance = Example.fix 512 (by decide)
      ∧ (f'.mask.Pix.len = 0 ↔ width = 0 ∨ height = 0)
      ∧ ((Example.fix 96 (by decide) = Example.fix 448 (by decide)
            ∧ (Example.fix 96 (by decide)).val % 64 = 0)
          ∨ (Example.fix 16 (by decide) = Example.fix 608 (by decide)
            ∧ (Example.fix 16 (by decide)).val % 64 = 0) → f'.mask.Pix.len = 0) :=
  ⟨⟨by decide, by decide⟩,
    Glyph_success Example.font Example.rast Example.face Example.dot 65
      ⟨⟨Example.fix 96 (by decide), Example.fix 16 (by decide)⟩,
        ⟨Example.fix 448 (by decide), Example.fix 608 (by decide)⟩⟩
      (Example.fix 512 (by decide)) (by decide) (by decide) rfl (by decide) (by decide)⟩

/-- C6, counterexample: with a decoder whose glyph-index lookup fails for the second code
point, `Kern` returns the kerning of the decoder and not 0; and with a decoder that succeeds
throughout, `Kern` does not return the kerning at the scale 768 of the face: the call it
makes is `Kern(1, 2, 1000, hinting)`, with the units per em of the font, the integer 1000,
where the other methods of `Face` pass `f.scale`. -/
theorem Kern_not_as_specified :
    ((Example.font.GlyphIndex 300).2 ≠ none
      ∧ (Face.Kern Example.font Example.face 65 300).1 ≠ Int26_6.zero
      ∧ (Face.Kern Example.font Example.face 65 300).1
          ≠ Face.KernSpec Example.font Example.face 65 300)
    ∧ ((Example.font.GlyphIndex 65).2 = none ∧ (Example.font.GlyphIndex 66).2 = none
      ∧ (Example.font.Kern 1 2 Example.face.scale Example.face.hinting).2 = none
      ∧ (Face.Kern Example.font Example.face 65 66).1
          ≠ (Example.font.Kern 1 2 Example.face.scale Example.face.hinting).1
      ∧ (Face.Kern Example.font Example.face 65 66).1
          ≠ Face.KernSpec Example.font Example.face 65 66
      ∧ (Face.Kern Example.font Example.face 65 66).2.buf
          = [Call.GlyphIndex 65, Call.GlyphIndex 66,
              Call.Kern 1 2 (Example.fix 1000 (by decide)) Hinting.HintingNone]) := by
  decide

/-- C6, amended: `Kern` makes three decoder calls and changes nothing else in the `Face`:
the glyph-index lookup of `r0`, the glyph-index lookup of `r1`, and one kerning lookup for
the two indices that the lookups returned, with the hinting of the face, at some pixels per
em `ppem`. It returns the kerning of that lookup when the lookup succeeds and 0 when it
fails. The errors of the two glyph-index lookups have no part in the result: a decoder that
returns the same indices beside any other errors `g` gives the same kerning. Which `ppem`
the kerning lookup receives is left open here. -/
theorem Kern_spec {ρ : Type} (font : Font) (f : Face ρ) (r0 r1 : rune) :
    ∃ ppem : Int26_6,
      (Face.Kern font f r0 r1).2
        = { f with buf := f.buf ++ [Call.GlyphIndex r0, Call.GlyphIndex r1,
              Call.Kern (font.GlyphIndex r0).1 (font.GlyphIndex r1).1 ppem f.hinting] }
      ∧ ((font.Kern (font.GlyphIndex r0).1 (font.GlyphIndex r1).1 ppem f.hinting).2 = none →
          (Face.Kern font f r0 r1).1
            = (font.Kern (font.GlyphIndex r0).1 (font.GlyphIndex r1).1 ppem f.hinting).1)
      ∧ ((font.Kern (font.GlyphIndex r0).1 (font.GlyphIndex r1).1 ppem f.hinting).2 ≠ none →
          (Face.Kern font f r0 r1).1 = Int26_6.zero)
      ∧ (∀ g : rune → error,
          (Face.Kern { font with GlyphIndex := fun r => ((font.GlyphIndex r).1, g r) }
              f r0 r1).1
            = (Face.Kern font f r0 r1).1) := by
  refine ⟨Int26_6.ofUnits font.UnitsPerEm, ?_, ?_, ?_, ?_⟩
  · simp only [Face.Kern, Face.index]
    split <;> simp_all
  · intro h
    simp only [Face.Kern, Face.index, h, ne_eq, not_true_eq_false, if_false]
  · intro h
    simp only [Face.Kern, Face.index, h, ne_eq, not_false_eq_true, if_true]
  · intro g
    simp only [Face.Kern, Face.index]

theorem Kern_spec_witness :
    ∃ ppem : Int26_6,
      (Face.Kern Example.font Example.face 65 300).2
        = { Example.face with
            buf := Example.face.buf ++ [Call.GlyphIndex 65, Call.GlyphIndex 300,
              Call.Kern (Example.font.GlyphIndex 65).1 (Example.font.GlyphIndex 300).1 ppem
                Example.face.hinting] }
      ∧ ((Example.font.Kern (Example.font.GlyphIndex 65).1 (Example.font.GlyphIndex 300).1
            ppem Example.face.hinting).2 = none →
          (Face.Kern Example.font Example.face 65 300).1
            = (Example.font.Kern (Example.font.GlyphIndex 65).1
                (Example.font.GlyphIndex 300).1 ppem Example.face.hinting).1)
      ∧ ((Example.font.Kern (Example.font.GlyphIndex 65).1 (Example.font.GlyphIndex 300).1
            ppem Example.face.hinting).2 ≠ none →
          (Face.Kern Example.font Example.face 65 300).1 = Int26_6.zero)
      ∧ (∀ g : rune → error,
          (Face.Kern
              { Example.font with
                GlyphIndex := fun r => ((Example.font.GlyphIndex r).1, g r) }
              Example.face 65 300).1
            = (Face.Kern Example.font Example.face 65 300).1) :=
  Kern_spec Example.font Example.face 65 300

/-- C7: `Metrics` is memoized. On a `Face` whose metrics are not set, the call asks the
decoder once, at the scale and hinting of the face, stores what the decoder returned, or
the zero `Metrics` if the decoder failed, sets `metricsSet`, returns the stored value and
changes nothing else. From then on every call returns that value, makes no call of the
decoder and leaves the `Face` as it is, whatever decoder `later` it would ask. -/
theorem Metrics_memoized {ρ : Type} (font : Font) (f : Face ρ) (h : f.metricsSet = false) :
    (Face.Metrics font f).2
      = { f with
          metrics := (if (font.Metrics f.scale f.hinting).2 = none
            then (font.Metrics f.scale f.hinting).1 else Metrics.zero)
          metricsSet := true
          buf := f.buf ++ [Call.Metrics f.scale f.hinting] }
    ∧ (Face.Metrics font f).1 = (Face.Metrics font f).2.metrics
    ∧ (∀ later : Font, Face.Metrics later (Face.Metrics font f).2
        = ((Face.Metrics font f).1, (Face.Metrics font f).2))
    ∧ (∀ later : List Font, Face.MetricsSeq (Face.Metrics font f).2 later
        = (List.replicate later.length (Face.Metrics font f).1, (Face.Metrics font f).2)) := by
  have hset : (Face.Metrics font f).2.metricsSet = true := by
    simp only [Face.Metrics, h, Bool.false_eq_true, not_false_eq_true, if_true]
  have hval : (Face.Metrics font f).1 = (Face.Metrics font f).2.metrics := by
    simp only [Face.Metrics, h, Bool.false_eq_true, not_false_eq_true, if_true]
  refine ⟨?_, hval, ?_, ?_⟩
  · simp only [Face.Metrics, h, Bool.false_eq_true, not_false_eq_true, if_true]
    split <;> simp_all
  · intro later
    rw [Face.Metrics_of_set later _ hset, hval]
  · intro later
    rw [Face.MetricsSeq_of_set later _ hset, hval]

theorem Metrics_memoized_witness :
    Example.face.metricsSet = false
    ∧ ((Face.Metrics Example.metricsFailFont Example.face).2
      = { Example.face with
          metrics := (if (Example.metricsFailFont.Metrics Example.face.scale
              Example.face.hinting).2 = none
            then (Example.metricsFailFont.Metrics Example.face.scale Example.face.hinting).1
            else Metrics.zero)
          metricsSet := true
          buf := Example.face.buf ++ [Call.Metrics Example.face.scale Example.face.hinting] }
    ∧ (Face.Metrics Example.metricsFailFont Example.face).1
        = (Face.Metrics Example.metricsFailFont Example.face).2.metrics
    ∧ (∀ later : Font, Face.Metrics later (Face.Metrics Example.metricsFailFont Example.face).2
        = ((Face.Metrics Example.metricsFailFont Example.face).1,
            (Face.Metrics Example.metricsFailFont Example.face).2))
    ∧ (∀ later : List Font,
        Face.MetricsSeq (Face.Metrics Example.metricsFailFont Example.face).2 later
        = (List.replicate later.length (Face.Metrics Example.metricsFailFont Example.face).1,
            (Face.Metrics Example.metricsFailFont Example.face).2))) :=
  ⟨rfl, Metrics_memoized Example.metricsFailFont Example.face rfl⟩

/-- C8: the capacity of the mask buffer never decreases. After any sequence `calls` of
`Glyph` calls from `f` to `f1` and one more successful call from `f1` to `f2`, with
`width` and `height` the size the call left in the mask rectangle: the capacity at `f1` is
at least the capacity at `f`, the capacity at `f2` is at least the capacity at `f1` and at
least `width * height`; the capacity changed exactly when the old one was below
`width * height`, and then it is `2 * width * height`; the mask holds `width * height`
bytes, within the capacity. -/
theorem mask_capacity_monotone {ρ : Type} (font : Font) (R : Rasterizer ρ)
    (f f1 f2 : Face ρ) (calls : List (Point26_6 × rune)) (dot : Point26_6) (r : rune)
    (res : GlyphResult)
    (hseq : Face.GlyphSeq font R f calls = some f1)
    (hcall : Face.Glyph font R f1 dot r = some (res, f2))
    (hok : res.ok = true)
    (hw : 0 ≤ f2.mask.Rect.Max.X) (hh : 0 ≤ f2.mask.Rect.Max.Y) :
    f.mask.Pix.cap ≤ f1.mask.Pix.cap
    ∧ f1.mask.Pix.cap ≤ f2.mask.Pix.cap
    ∧ f2.mask.Rect.Max.X * f2.mask.Rect.Max.Y ≤ (f2.mask.Pix.cap : Int)
    ∧ (f2.mask.Pix.cap ≠ f1.mask.Pix.cap
        ↔ (f1.mask.Pix.cap : Int) < f2.mask.Rect.Max.X * f2.mask.Rect.Max.Y)
    ∧ ((f1.mask.Pix.cap : Int) < f2.mask.Rect.Max.X * f2.mask.Rect.Max.Y
        → (f2.mask.Pix.cap : Int) = 2 * (f2.mask.Rect.Max.X * f2.mask.Rect.Max.Y))
    ∧ (f2.mask.Pix.len : Int) = f2.mask.Rect.Max.X * f2.mask.Rect.Max.Y
    ∧ f2.mask.Pix.len ≤ f2.mask.Pix.cap := by
  have hnnwh := mul_nonneg hw hh
  have m1 := Face.GlyphSeq_cap_mono font R calls f f1 hseq
  rcases Face.Glyph_cap font R f1 dot r (res, f2) hcall with ⟨e, -⟩ | ⟨-, hnn, hlen, hcap⟩
  · rw [hok] at e; cases e
  · simp only at hnn hlen hcap
    generalize f2.mask.Rect.Max.X * f2.mask.Rect.Max.Y = npix at *
    split at hcap
    · refine ⟨m1, ?_, ?_, ?_, ?_, hlen, ?_⟩ <;> omega
    · refine ⟨m1, ?_, ?_, ?_, ?_, hlen, ?_⟩ <;> omega

theorem mask_capacity_monotone_witness :
    (Face.GlyphSeq Example.font Example.rast Example.face [(Example.dot, 65)]
        = some Example.faceA
      ∧ Face.Glyph Example.font Example.rast Example.faceA Example.dot 66
        = some (Example.glyphB, Example.faceAB)
      ∧ Example.glyphB.ok = true
      ∧ 0 ≤ Example.faceAB.mask.Rect.Max.X ∧ 0 ≤ Example.faceAB.mask.Rect.Max.Y)
    ∧ (Example.face.mask.Pix.cap ≤ Example.faceA.mask.Pix.cap
      ∧ Example.faceA.mask.Pix.cap ≤ Example.faceAB.mask.Pix.cap
      ∧ Example.faceAB.mask.Rect.Max.X * Example.faceAB.mask.Rect.Max.Y
          ≤ (Example.faceAB.mask.Pix.cap : Int)
      ∧ (Example.faceAB.mask.Pix.cap ≠ Example.faceA.mask.Pix.cap
          ↔ (Example.faceA.mask.Pix.cap : Int)
            < Example.faceAB.mask.Rect.Max.X * Example.faceAB.mask.Rect.Max.Y)
      ∧ ((Example.faceA.mask.Pix.cap : Int)
            < Example.faceAB.mask.Rect.Max.X * Example.faceAB.mask.Rect.Max.Y
          → (Example.faceAB.mask.Pix.cap : Int)
            = 2 * (Example.faceAB.mask.Rect.Max.X * Example.faceAB.mask.Rect.Max.Y))
      ∧ (Example.faceAB.mask.Pix.len : Int)
          = Example.faceAB.mask.Rect.Max.X * Example.faceAB.mask.Rect.Max.Y
      ∧ Example.faceAB.mask.Pix.len ≤ Example.faceAB.mask.Pix.cap) :=
  ⟨⟨rfl, rfl, rfl, by decide, by decide⟩,
    mask_capacity_monotone Example.font Example.rast Example.face Example.faceA Example.faceAB
      [(Example.dot, 65)] Example.dot 66 Example.glyphB rfl rfl rfl (by decide) (by decide)⟩

end opentype
